import Mathlib

/-!
Verification of the xchem-align collation / alignment bookkeeping engine
(`src/xchemalign/collator.py`, `aligner.py`, `validator.py`) against its
natural-language specification.

Python dictionaries are modelled as association lists `List (String × α)`
with insertion-order semantics: assigning to an existing key keeps its
position (as CPython dicts do), assigning a fresh key appends.  Exceptions
are modelled by `Option`: a function returns `none` when the Python code
would raise.  Timestamps (`utils.to_datetime` applied to the stored
last-updated strings) are modelled as `Nat` with the numeric order standing
for the chronological order of the parsed datetimes.
-/

set_option autoImplicit false
set_option synthInstance.maxSize 2048

namespace XChemAlign

/-- Python `d.get(k)` / `d[k]` lookup on an insertion-ordered dict. -/
def lookup {α : Type} (k : String) : List (String × α) → Option α
  | [] => none
  | (k', v) :: rest => if k' = k then some v else lookup k rest

/-- Python `d[k] = v` on an insertion-ordered dict: overwriting an existing
key keeps its position, a new key is appended at the end. -/
def upsert {α : Type} (k : String) (v : α) : List (String × α) → List (String × α)
  | [] => [(k, v)]
  | (k', v') :: rest => if k' = k then (k, v) :: rest else (k', v') :: upsert k v rest

@[simp] theorem lookup_nil {α : Type} (k : String) : lookup (α := α) k [] = none := rfl

theorem lookup_cons {α : Type} (k k' : String) (v : α) (l : List (String × α)) :
    lookup k ((k', v) :: l) = if k' = k then some v else lookup k l := rfl

theorem lookup_upsert_self {α : Type} (k : String) (v : α) (l : List (String × α)) :
    lookup k (upsert k v l) = some v := by
  induction l with
  | nil => simp [upsert, lookup]
  | cons hd tl ih =>
    obtain ⟨k', v'⟩ := hd
    by_cases h : k' = k
    · simp [upsert, lookup, h]
    · simp [upsert, lookup, h, ih]

theorem lookup_upsert_ne {α : Type} (k k' : String) (v : α) (l : List (String × α))
    (h : k ≠ k') : lookup k' (upsert k v l) = lookup k' l := by
  induction l with
  | nil => simp [upsert, lookup, h]
  | cons hd tl ih =>
    obtain ⟨k'', v''⟩ := hd
    by_cases hk : k'' = k
    · subst hk
      simp [upsert, lookup, h]
    · simp [upsert, lookup, hk, ih]

theorem lookup_eq_none_of_not_mem {α : Type} (k : String) (l : List (String × α))
    (h : k ∉ l.map Prod.fst) : lookup k l = none := by
  induction l with
  | nil => rfl
  | cons hd tl ih =>
    obtain ⟨k', v'⟩ := hd
    simp only [List.map_cons, List.mem_cons] at h
    push_neg at h
    simp [lookup, Ne.symm h.1, ih h.2]

/-! ### Python `str.format` with automatic field numbering

`'a {} b {} c {}'.format(x)` raises `IndexError` when there are more
replacement fields than positional arguments.  A template is a list of
literal parts and holes; formatting consumes the arguments in order and
fails (`none`, modelling the raised `IndexError`) when a hole has no
argument left. -/

inductive FmtPart : Type where
  | lit (s : String)
  | hole
  deriving DecidableEq, Repr

def pyFormat : List FmtPart → List String → Option String
  | [], _ => some ""
  | .lit s :: rest, args => (pyFormat rest args).map (fun t => s ++ t)
  | .hole :: rest, args =>
    match args with
    | [] => none
    | a :: args' => (pyFormat rest args').map (fun t => a ++ t)

/-- The template of the warning logged by `Collator._munge_history` when a
last-updated date is missing (collator.py line 216):
`'Dates not defined for {}, must assume xtal is updated {} {}'`.
It has three replacement fields but the source supplies a single argument
(`.format(xtal_name, )`). -/
def datesWarnTpl : List FmtPart :=
  [.lit "Dates not defined for ", .hole,
   .lit ", must assume xtal is updated ", .hole, .lit " ", .hole]

/-! ### Collator data model (collator.py) -/

/-- A crystallographic file entry: either still a plain path (as produced by
the validator) or the `{file:, sha256:}` pair written by `_copy_files`. -/
inductive FVal : Type where
  | path (p : String)
  | ingested (file : String) (sha256 : String)
  deriving DecidableEq, Repr

/-- The `crystallographic_files` sub-dict of a crystal record; `none` models
a `null` entry. -/
structure XtalFiles : Type where
  xtal_pdb : Option FVal
  xtal_mtz : Option FVal
  ligand_cif : Option FVal
  deriving DecidableEq, Repr

/-- One crystal record (`meta['crystals'][name]`): optional last-updated
timestamp, the `status` / `reason` keys written by `_munge_history` (absent
= `none`), and the file entries. -/
structure XtalData : Type where
  last_updated : Option Nat
  status : Option String
  reason : Option String
  files : XtalFiles
  deriving DecidableEq, Repr

/-- A metadata document as read from a version directory: its `crystals`
mapping. -/
structure MetaDoc : Type where
  crystals : List (String × XtalData)
  deriving DecidableEq, Repr

/-- Result of `Collator._munge_history`: the two returned dicts plus the
warnings emitted while munging. -/
structure MungeRes : Type where
  allXtals : List (String × XtalData)
  newOrUpdated : List (String × XtalData)
  warnings : List String
  deriving DecidableEq, Repr

/-- First loop of `_munge_history` (collator.py lines 195-203): fold the
historical documents in order, each crystal overwriting the running
`all_xtals` entry for its tag. -/
def mergeHistory (history : List MetaDoc) : List (String × XtalData) :=
  history.foldl (fun acc d => d.crystals.foldl (fun a e => upsert e.1 e.2 a) acc) []

/-- Status computation for one crystal of the current upload
(collator.py lines 211-228).  Returns the crystal record with its new
`status`, whether it joins `new_or_updated_xtals`, and any emitted warning;
`none` models the `IndexError` raised by the malformed warning format call
on line 216 (three replacement fields, one argument). -/
def classifyXtal (allX : List (String × XtalData)) (name : String) (data : XtalData) :
    Option (XtalData × Bool × List String) :=
  match lookup name allX with
  | some old =>
    match old.last_updated, data.last_updated with
    | some o, some n =>
      if o < n then some ({ data with status := some "supersedes" }, true, [])
      else some ({ data with status := some "unchanged" }, false, [])
    | _, _ =>
      -- line 216: logger.warn('Dates not defined for {}, ... {} {}'.format(xtal_name, ))
      match pyFormat datesWarnTpl [name] with
      | none => none
      | some w => some ({ data with status := some "supersedes" }, true, [w])
  | none => some ({ data with status := some "new" }, true, [])

/-- Deprecation override (collator.py lines 232-235). -/
def applyDeprecation (deps : List (String × String)) (name : String) (d : XtalData) :
    XtalData :=
  match lookup name deps with
  | some r => { d with status := some "deprecated", reason := some r }
  | none => d

/-- One iteration of the current-upload loop of `_munge_history`
(collator.py lines 209-235).  In the source the crystal dict object is
mutated in place and is shared by `all_xtals` and `new_or_updated_xtals`,
so the deprecation override applied after insertion (lines 232-234) is
visible through both dicts; here the final record is computed first and
then inserted. -/
def mungeStep (deps : List (String × String)) (st : MungeRes) (e : String × XtalData) :
    Option MungeRes :=
  match classifyXtal st.allXtals e.1 e.2 with
  | none => none
  | some (d0, isNew, ws) =>
    let d := applyDeprecation deps e.1 d0
    some { allXtals := upsert e.1 d st.allXtals
           newOrUpdated := if isNew then upsert e.1 d st.newOrUpdated else st.newOrUpdated
           warnings := st.warnings ++ ws }

/-- `Collator._munge_history` (collator.py lines 183-243): merge the
historical documents, then fold the current upload's crystals over the
merged map.  `none` models an uncaught exception. -/
def mungeHistory (history : List MetaDoc) (current : List (String × XtalData))
    (deps : List (String × String)) : Option MungeRes :=
  List.foldlM (mungeStep deps) ⟨mergeHistory history, [], []⟩ current

/-! ### Helper lemmas about the munge fold -/

theorem lookup_eq_none_iff {α : Type} (k : String) (l : List (String × α)) :
    lookup k l = none ↔ k ∉ l.map Prod.fst := by
  constructor
  · intro h
    induction l with
    | nil => simp
    | cons hd tl ih =>
      obtain ⟨k', v'⟩ := hd
      simp only [lookup] at h
      by_cases hk : k' = k
      · simp [hk] at h
      · simp only [List.map_cons, List.mem_cons]
        push_neg
        rw [if_neg hk] at h
        exact ⟨fun he => hk he.symm, ih h⟩
  · exact lookup_eq_none_of_not_mem k l

theorem optFoldlM_append {σ α : Type} (f : σ → α → Option σ) (l₁ l₂ : List α) (st : σ) :
    List.foldlM f st (l₁ ++ l₂) = (List.foldlM f st l₁).bind fun s => List.foldlM f s l₂ := by
  induction l₁ generalizing st with
  | nil => simp [List.foldlM]
  | cons a t ih =>
    show (f st a).bind (fun s => List.foldlM f s (t ++ l₂))
        = ((f st a).bind fun s => List.foldlM f s t).bind fun s => List.foldlM f s l₂
    cases f st a with
    | none => rfl
    | some s => exact ih s

theorem mungeStep_lookup_preserve (deps : List (String × String)) (st st' : MungeRes)
    (e : String × XtalData) (name : String) (hne : e.1 ≠ name)
    (h : mungeStep deps st e = some st') :
    lookup name st'.allXtals = lookup name st.allXtals ∧
    lookup name st'.newOrUpdated = lookup name st.newOrUpdated := by
  unfold mungeStep at h
  cases hc : classifyXtal st.allXtals e.1 e.2 with
  | none => rw [hc] at h; exact absurd h (by simp)
  | some val =>
    obtain ⟨d0, isNew, ws⟩ := val
    rw [hc] at h
    simp only [Option.some.injEq] at h
    subst h
    refine ⟨lookup_upsert_ne _ _ _ _ hne, ?_⟩
    cases isNew with
    | true => exact lookup_upsert_ne _ _ _ _ hne
    | false => rfl

theorem mungeFold_lookup_preserve (deps : List (String × String)) (name : String) :
    ∀ (l : List (String × XtalData)) (st st' : MungeRes),
      name ∉ l.map Prod.fst →
      List.foldlM (mungeStep deps) st l = some st' →
      lookup name st'.allXtals = lookup name st.allXtals ∧
      lookup name st'.newOrUpdated = lookup name st.newOrUpdated := by
  intro l
  induction l with
  | nil =>
    intro st st' _ h
    simp only [List.foldlM] at h
    cases h
    exact ⟨rfl, rfl⟩
  | cons a t ih =>
    intro st st' hmem h
    simp only [List.map_cons, List.mem_cons] at hmem
    push_neg at hmem
    have hstep : List.foldlM (mungeStep deps) st (a :: t)
        = (mungeStep deps st a).bind fun s => List.foldlM (mungeStep deps) s t := rfl
    rw [hstep] at h
    cases hs : mungeStep deps st a with
    | none => rw [hs] at h; exact absurd h (by simp)
    | some st₁ =>
      rw [hs] at h
      simp only [Option.some_bind] at h
      have h₁ := mungeStep_lookup_preserve deps st st₁ a name (fun he => hmem.1 he.symm) hs
      have h₂ := ih st₁ st' hmem.2 h
      exact ⟨h₂.1.trans h₁.1, h₂.2.trans h₁.2⟩

theorem lookup_insertAll {α : Type} (name : String) :
    ∀ (xs : List (String × α)) (acc : List (String × α)), name ∉ xs.map Prod.fst →
      lookup name (xs.foldl (fun a e => upsert e.1 e.2 a) acc) = lookup name acc := by
  intro xs
  induction xs with
  | nil => intro acc _; rfl
  | cons hd tl ih =>
    intro acc hmem
    simp only [List.map_cons, List.mem_cons] at hmem
    push_neg at hmem
    simp only [List.foldl_cons]
    rw [ih _ hmem.2, lookup_upsert_ne _ _ _ _ (fun he => hmem.1 he.symm)]

theorem lookup_mergeHistory_eq_none (history : List MetaDoc) (name : String)
    (h : ∀ d ∈ history, lookup name d.crystals = none) :
    lookup name (mergeHistory history) = none := by
  unfold mergeHistory
  have key : ∀ (hs : List MetaDoc) (acc : List (String × XtalData)),
      (∀ d ∈ hs, lookup name d.crystals = none) →
      lookup name acc = none →
      lookup name (hs.foldl (fun acc d => d.crystals.foldl (fun a e => upsert e.1 e.2 a) acc) acc)
        = none := by
    intro hs
    induction hs with
    | nil => intro acc _ hacc; exact hacc
    | cons d t ih =>
      intro acc hall hacc
      simp only [List.foldl_cons]
      refine ih _ (fun d' hd' => hall d' (List.mem_cons_of_mem _ hd')) ?_
      rw [lookup_insertAll name _ _
        ((lookup_eq_none_iff name d.crystals).mp (hall d (List.mem_cons_self _ _)))]
      exact hacc
  exact key history [] h rfl

/-- All-null crystallographic file entries, used in concrete instantiations. -/
def F0 : XtalFiles := ⟨none, none, none⟩

/-! ### Claims C1-C3: `Collator._munge_history` -/

/-- C1.  The spec says that when a dataset's tag is already in the merged
history and either last-updated timestamp is missing, `_munge_history`
marks it `supersedes`, records a warning, and completes normally.  The
code instead raises: the warning call on collator.py line 216 formats
`'Dates not defined for {}, must assume xtal is updated {} {}'` with a
single argument (`.format(xtal_name, )`), so `str.format` raises
`IndexError` before the status is assigned and the whole munge aborts.
At the concrete input below (tag `"a"` in history with a timestamp, in the
current upload without one) the embedded `_munge_history` yields `none`
(an uncaught exception) instead of a completed result. -/
theorem munge_missing_date_raises :
    mungeHistory [⟨[("a", ⟨some 1, none, none, F0⟩)]⟩]
      [("a", ⟨none, none, none, F0⟩)] [] = none := by decide

/-- C2.  A dataset of the current upload whose tag is absent from every
historical metadata document gets status `new`, and its record appears both
in the returned `all_xtals` map and in the `new_or_updated_xtals` subset. -/
theorem munge_new_dataset
    (history : List MetaDoc) (l₁ l₂ : List (String × XtalData))
    (deps : List (String × String)) (name : String) (data : XtalData) (res : MungeRes)
    (hres : mungeHistory history (l₁ ++ (name, data) :: l₂) deps = some res)
    (hl₁ : name ∉ l₁.map Prod.fst) (hl₂ : name ∉ l₂.map Prod.fst)
    (habs : ∀ d ∈ history, lookup name d.crystals = none)
    (hdep : lookup name deps = none) :
    lookup name res.allXtals = some { data with status := some "new" } ∧
    lookup name res.newOrUpdated = some { data with status := some "new" } := by
  unfold mungeHistory at hres
  rw [optFoldlM_append] at hres
  cases h₁ : List.foldlM (mungeStep deps) ⟨mergeHistory history, [], []⟩ l₁ with
  | none => rw [h₁] at hres; exact absurd hres (by simp)
  | some stA =>
    rw [h₁] at hres
    simp only [Option.some_bind] at hres
    have hA := mungeFold_lookup_preserve deps name l₁ _ stA hl₁ h₁
    have hAall : lookup name stA.allXtals = none := by
      rw [hA.1]; exact lookup_mergeHistory_eq_none history name habs
    have hAnew : lookup name stA.newOrUpdated = none := by rw [hA.2]; rfl
    have hcons : List.foldlM (mungeStep deps) stA ((name, data) :: l₂)
        = (mungeStep deps stA (name, data)).bind
          fun s => List.foldlM (mungeStep deps) s l₂ := rfl
    rw [hcons] at hres
    have hstep : mungeStep deps stA (name, data)
        = some { allXtals := upsert name { data with status := some "new" } stA.allXtals
                 newOrUpdated := upsert name { data with status := some "new" } stA.newOrUpdated
                 warnings := stA.warnings ++ [] } := by
      unfold mungeStep classifyXtal
      rw [hAall]
      simp [applyDeprecation, hdep]
    rw [hstep] at hres
    simp only [Option.some_bind] at hres
    have h₂ := mungeFold_lookup_preserve deps name l₂ _ res hl₂ hres
    constructor
    · rw [h₂.1]; exact lookup_upsert_self _ _ _
    · rw [h₂.2]; exact lookup_upsert_self _ _ _

/-- Concrete instantiation of `munge_new_dataset`: a single-crystal upload
with no history. -/
theorem munge_new_dataset_witness :
    lookup "a" (MungeRes.mk [("a", ⟨some 2, some "new", none, F0⟩)]
        [("a", ⟨some 2, some "new", none, F0⟩)] []).allXtals
      = some ⟨some 2, some "new", none, F0⟩ ∧
    lookup "a" (MungeRes.mk [("a", ⟨some 2, some "new", none, F0⟩)]
        [("a", ⟨some 2, some "new", none, F0⟩)] []).newOrUpdated
      = some ⟨some 2, some "new", none, F0⟩ :=
  munge_new_dataset [] [] [] [] "a" ⟨some 2, none, none, F0⟩
    ⟨[("a", ⟨some 2, some "new", none, F0⟩)], [("a", ⟨some 2, some "new", none, F0⟩)], []⟩
    (by decide) (by decide) (by decide) (by simp) (by decide)

/-- C3 counterexample.  Take deprecations `{"a": "bad"}`, a history whose
only document contains crystal `"a"`, and a current upload with no
crystals.  `_munge_history` applies deprecations only inside the loop over
the *current* upload's crystals (collator.py lines 209-235), so the
record for `"a"` in the returned `all_xtals` keeps its historical status
(`none` here) instead of `deprecated`: the claim's unconditional override
fails for tags that are not part of the current upload. -/
theorem munge_deprecation_counterexample :
    (mungeHistory [⟨[("a", ⟨none, none, none, F0⟩)]⟩] [] [("a", "bad")]).map
        (fun res => lookup "a" res.allXtals)
      = some (some ⟨none, none, none, F0⟩)
    ∧ (XtalData.mk none none none F0).status ≠ some "deprecated" :=
  ⟨by decide, by decide⟩

/-- C3 (amended).  For every tag of the deprecations mapping that is a
crystal of the *current upload*, a successful `_munge_history` leaves a
record for it in `all_xtals` whose status is `deprecated` — overriding any
timestamp-derived status — and whose `reason` is the declared reason string
verbatim. -/
theorem munge_deprecation_override
    (history : List MetaDoc) (l₁ l₂ : List (String × XtalData))
    (deps : List (String × String)) (name : String) (data : XtalData) (res : MungeRes)
    (r : String)
    (hres : mungeHistory history (l₁ ++ (name, data) :: l₂) deps = some res)
    (hl₂ : name ∉ l₂.map Prod.fst)
    (hdep : lookup name deps = some r) :
    ∃ d, lookup name res.allXtals = some d ∧
      d.status = some "deprecated" ∧ d.reason = some r := by
  unfold mungeHistory at hres
  rw [optFoldlM_append] at hres
  cases h₁ : List.foldlM (mungeStep deps) ⟨mergeHistory history, [], []⟩ l₁ with
  | none => rw [h₁] at hres; exact absurd hres (by simp)
  | some stA =>
    rw [h₁] at hres
    simp only [Option.some_bind] at hres
    have hcons : List.foldlM (mungeStep deps) stA ((name, data) :: l₂)
        = (mungeStep deps stA (name, data)).bind
          fun s => List.foldlM (mungeStep deps) s l₂ := rfl
    rw [hcons] at hres
    cases hs : mungeStep deps stA (name, data) with
    | none => rw [hs] at hres; exact absurd hres (by simp)
    | some st₁ =>
      rw [hs] at hres
      simp only [Option.some_bind] at hres
      have h₂ := mungeFold_lookup_preserve deps name l₂ st₁ res hl₂ hres
      unfold mungeStep at hs
      cases hc : classifyXtal stA.allXtals name data with
      | none => rw [hc] at hs; exact absurd hs (by simp)
      | some val =>
        obtain ⟨d0, isNew, ws⟩ := val
        rw [hc] at hs
        simp only [Option.some.injEq] at hs
        subst hs
        refine ⟨applyDeprecation deps name d0, ?_, ?_, ?_⟩
        · rw [h₂.1]
          exact lookup_upsert_self _ _ _
        · unfold applyDeprecation; rw [hdep]
        · unfold applyDeprecation; rw [hdep]

/-- Concrete instantiation of `munge_deprecation_override`: crystal `"a"`
is in the current upload and deprecated with reason `"bad"`. -/
theorem munge_deprecation_override_witness :
    ∃ d, lookup "a" (MungeRes.mk
        [("a", ⟨some 2, some "deprecated", some "bad", F0⟩)]
        [("a", ⟨some 2, some "deprecated", some "bad", F0⟩)] []).allXtals = some d ∧
      d.status = some "deprecated" ∧ d.reason = some "bad" :=
  munge_deprecation_override [] [] [] [("a", "bad")] "a" ⟨some 2, none, none, F0⟩
    ⟨[("a", ⟨some 2, some "deprecated", some "bad", F0⟩)],
     [("a", ⟨some 2, some "deprecated", some "bad", F0⟩)], []⟩ "bad"
    (by decide) (by decide) (by decide)

/-! ### Collator filesystem model and `_read_versions` / `_copy_files` / `run`

Write effects are recorded structurally: every mutating call in collator.py
builds its path by joining `self.version_dir` (that is,
`output_dir/upload_<version>`) with relative components, so an effect is a
kind, the version index, and the relative component list.  File contents
are byte lists; `utils.gen_sha256` is modelled as an abstract hash function
applied to the file's bytes (the source of `utils` is not part of the
collator module; per the spec it computes a content hash of the file). -/

inductive EffKind : Type where
  | mkdirE
  | writeFileE
  | removeTreeE
  deriving DecidableEq, Repr

/-- One write effect under `output_dir/upload_<version>/<rel...>`. -/
structure Eff : Type where
  kind : EffKind
  version : Nat
  rel : List String
  deriving DecidableEq, Repr

/-- The parts of the filesystem the collator reads. -/
structure CollatorFS : Type where
  /-- `os.path.isdir(output_dir/upload_<v>)` -/
  isVersionDir : Nat → Bool
  /-- parsed content of `output_dir/upload_<v>/metadata.yaml`, `none` when missing -/
  metaFile : Nat → Option MetaDoc
  /-- whether the current version's `crystallographic` dir pre-exists (line 112) -/
  crystDirExists : Bool
  /-- bytes of a source file by full path, `none` when the file is missing -/
  content : String → Option (List Nat)

/-- The `while` loop of `_read_versions` (collator.py lines 72-78): starting
at `v`, return the first index whose `upload_` directory does not exist.
`fuel` bounds the loop (the Python loop terminates because only finitely
many directories exist). -/
def firstMissing (isdir : Nat → Bool) : Nat → Nat → Option Nat
  | 0, _ => none
  | fuel + 1, v => if isdir v then firstMissing isdir fuel (v + 1) else some v

/-- The history-reading loop of `_read_versions` (collator.py lines 89-99):
read `metadata.yaml` of each listed version in order; a missing file aborts
with an error (`none`). -/
def readHistory (fs : CollatorFS) : List Nat → Option (List MetaDoc)
  | [] => some []
  | v :: rest =>
    match fs.metaFile v with
    | none => none
    | some m => (readHistory fs rest).map (fun t => m :: t)

/-- `Collator._read_versions` (collator.py lines 70-107): scan for the first
missing `upload_<v>` directory; if it is `upload_1`, error (`none`);
otherwise the working version is one less, and the metadata documents of
versions `1 .. version-1` are read in ascending order, any missing one
aborting the run.  The function performs no filesystem writes (it only
calls `os.path.isdir`, `os.path.join`, `open(..., 'r')` and
`yaml.safe_load`). -/
def readVersions (fs : CollatorFS) (fuel : Nat) : Option (Nat × List MetaDoc) :=
  match firstMissing fs.isVersionDir fuel 1 with
  | none => none
  | some vnext =>
    if vnext = 1 then none
    else
      let version := vnext - 1
      match readHistory fs (List.range' 1 (version - 1)) with
      | none => none
      | some hist => some (version, hist)

/-- `os.path.join` for a relative second component (comment in
validator.py's callers: all joined components here are relative). -/
def joinP (a b : String) : String := a ++ "/" ++ b

/-- `validator.make_path_relative` (validator.py lines 17-21): drop a
leading slash.  Written on the character list so that it evaluates inside
the kernel; the callers only ever pass non-empty paths (Python's
`filepath[0]` would raise on an empty string). -/
def makePathRelative (p : String) : String :=
  match p.data with
  | [] => p
  | c :: cs => if c = '/' then String.mk cs else p

/-- `validator.prepend_base` (validator.py lines 40-51); an empty base
models `base_dir = None`. -/
def prependBase (base : String) (p : String) : String :=
  if base ≠ "" then joinP base (makePathRelative p) else p

/-- Output path of a copied crystal file:
`version_dir/crystallographic/<name>/<fname>` (collator.py lines 110, 119,
128/142/156). -/
def outPath (vdirStr name fname : String) : String :=
  joinP (joinP (joinP vdirStr "crystallographic") name) fname

/-- Handling of one file entry in `_copy_files` (collator.py lines
124-136, under the comment `# handle the PDB file`, and the analogous MTZ
and CIF blocks): a `null` entry is left `null` (only a warning is logged);
a path entry is copied to `outPath` (the bytes are preserved by
`shutil.copy2`) and replaced by `{file: <copied path>, sha256:
gen_sha256(<copied path>)}`.  A missing source makes `shutil.copy2` raise
`FileNotFoundError` (`none`); an already-ingested entry would make
`prepend_base` raise on a dict (`none`).  Returns the new entry and the
`(path, bytes)` file written, plus the write effect. -/
def copyEntry (content : String → Option (List Nat)) (hash : List Nat → String)
    (base vdirStr : String) (v : Nat) (name fname : String) (entry : Option FVal) :
    Option (Option FVal × List (String × List Nat)) × List Eff :=
  match entry with
  | none => (some (none, []), [])
  | some (.ingested _ _) => (none, [])
  | some (.path p) =>
    match content (prependBase base p) with
    | none => (none, [])
    | some bytes =>
      (some (some (.ingested (outPath vdirStr name fname) (hash bytes)),
             [(outPath vdirStr name fname, bytes)]),
       [⟨.writeFileE, v, ["crystallographic", name, fname]⟩])

/-- Processing of one crystal in `_copy_files` (collator.py lines
118-179): make the per-crystal directory, then handle the PDB, MTZ and CIF
entries in order.  On a failure the effects performed so far are kept. -/
def copyXtal (content : String → Option (List Nat)) (hash : List Nat → String)
    (base vdirStr : String) (v : Nat) (name : String) (data : XtalData) :
    Option (XtalData × List (String × List Nat)) × List Eff :=
  let e0 : List Eff := [⟨.mkdirE, v, ["crystallographic", name]⟩]
  match copyEntry content hash base vdirStr v name (name ++ ".pdb") data.files.xtal_pdb with
  | (none, f1) => (none, e0 ++ f1)
  | (some (pdb', w1), f1) =>
    match copyEntry content hash base vdirStr v name (name ++ ".mtz") data.files.xtal_mtz with
    | (none, f2) => (none, e0 ++ f1 ++ f2)
    | (some (mtz', w2), f2) =>
      match copyEntry content hash base vdirStr v name (name ++ ".cif") data.files.ligand_cif with
      | (none, f3) => (none, e0 ++ f1 ++ f2 ++ f3)
      | (some (cif', w3), f3) =>
        (some ({ data with files := ⟨pdb', mtz', cif'⟩ }, w1 ++ w2 ++ w3),
         e0 ++ f1 ++ f2 ++ f3)

/-- The crystal loop of `_copy_files`: crystals are processed in order and
a failure stops the loop, keeping the effects already performed. -/
def copyFilesGo (content : String → Option (List Nat)) (hash : List Nat → String)
    (base vdirStr : String) (v : Nat) :
    List (String × XtalData) →
    Option (List (String × XtalData) × List (String × List Nat)) × List Eff
  | [] => (some ([], []), [])
  | (name, data) :: rest =>
    match copyXtal content hash base vdirStr v name data with
    | (none, effs) => (none, effs)
    | (some (d', w), effs) =>
      match copyFilesGo content hash base vdirStr v rest with
      | (none, effs') => (none, effs ++ effs')
      | (some (tail, w'), effs') => (some ((name, d') :: tail, w ++ w'), effs ++ effs')

/-- `Collator._copy_files` (collator.py lines 109-181): remove an existing
`crystallographic` dir, recreate it, then process every crystal of the
current metadata.  Returns the updated metadata (the source mutates `meta`
in place and returns it) together with the files written, and the write
effects. -/
def copyFiles (content : String → Option (List Nat)) (hash : List Nat → String)
    (base vdirStr : String) (v : Nat) (crystDirExists : Bool) (meta : MetaDoc) :
    Option (MetaDoc × List (String × List Nat)) × List Eff :=
  let pre : List Eff :=
    (if crystDirExists then [⟨.removeTreeE, v, ["crystallographic"]⟩] else [])
      ++ [⟨.mkdirE, v, ["crystallographic"]⟩]
  match copyFilesGo content hash base vdirStr v meta.crystals with
  | (none, effs) => (none, pre ++ effs)
  | (some (crystals', written), effs) => (some (⟨crystals'⟩, written), pre ++ effs)

/-- `Collator._write_metadata` (collator.py lines 245-254): writes
`metadata.yaml`, `all_xtals.yaml` and `new_xtals.yaml` inside the version
directory. -/
def writeMetadataEffs (v : Nat) : List Eff :=
  [⟨.writeFileE, v, ["metadata.yaml"]⟩, ⟨.writeFileE, v, ["all_xtals.yaml"]⟩,
   ⟨.writeFileE, v, ["new_xtals.yaml"]⟩]

/-- `Collator.run` (collator.py lines 52-68): resolve the version
directory, copy the files, munge the history (the source passes `meta`,
which `_copy_files` has mutated in place, so the munge sees the ingested
entries), write the metadata documents and copy the config file (whose
basename lands inside the version directory).  The effect trace keeps
everything performed up to a failure. -/
def collatorRun (fs : CollatorFS) (hash : List Nat → String)
    (base outputDir configBase : String) (deps : List (String × String))
    (fuel : Nat) (meta : MetaDoc) : Option MetaDoc × List Eff :=
  match readVersions fs fuel with
  | none => (none, [])
  | some (version, history) =>
    let vdirStr := joinP outputDir ("upload_" ++ toString version)
    match copyFiles fs.content hash base vdirStr version fs.crystDirExists meta with
    | (none, effs) => (none, effs)
    | (some (newMeta, _written), effs) =>
      match mungeHistory history newMeta.crystals deps with
      | none => (none, effs)
      | some _res =>
        (some newMeta,
         effs ++ writeMetadataEffs version ++ [⟨.writeFileE, version, [configBase]⟩])

/-! ### Claims C4-C5: `_read_versions` and the frame of a collation run -/

theorem firstMissing_invariant (d : Nat → Bool) :
    ∀ (fuel start v : Nat), firstMissing d fuel start = some v →
      start ≤ v ∧ d v = false ∧ ∀ w, start ≤ w → w < v → d w = true := by
  intro fuel
  induction fuel with
  | zero => intro start v h; cases h
  | succ f ih =>
    intro start v h
    unfold firstMissing at h
    by_cases hd : d start
    · rw [if_pos hd] at h
      obtain ⟨h1, h2, h3⟩ := ih (start + 1) v h
      refine ⟨by omega, h2, ?_⟩
      intro w hw1 hw2
      rcases Nat.eq_or_lt_of_le hw1 with he | hlt
      · rwa [he] at hd
      · exact h3 w hlt hw2
    · rw [if_neg hd] at h
      cases h
      exact ⟨Nat.le_refl _, by simpa using hd, fun w hw1 hw2 => absurd (Nat.lt_of_le_of_lt hw1 hw2) (Nat.lt_irrefl _)⟩

theorem readHistory_none_of_mem (fs : CollatorFS) (v : Nat) :
    ∀ (l : List Nat), v ∈ l → fs.metaFile v = none → readHistory fs l = none := by
  intro l
  induction l with
  | nil => intro h; cases h
  | cons a t ih =>
    intro hmem hnone
    rcases List.mem_cons.mp hmem with he | ht
    · subst he
      unfold readHistory
      rw [hnone]
    · unfold readHistory
      cases fs.metaFile a with
      | none => rfl
      | some m => rw [ih ht hnone]; rfl

theorem readVersions_eq_of_scan (fs : CollatorFS) (fuel vnext : Nat)
    (h : firstMissing fs.isVersionDir fuel 1 = some vnext) :
    readVersions fs fuel =
      if vnext = 1 then none
      else
        match readHistory fs (List.range' 1 (vnext - 1 - 1)) with
        | none => none
        | some hist => some (vnext - 1, hist) := by
  unfold readVersions
  rw [h]

theorem readVersions_eq_none_of_scan_none (fs : CollatorFS) (fuel : Nat)
    (h : firstMissing fs.isVersionDir fuel 1 = none) :
    readVersions fs fuel = none := by
  unfold readVersions
  rw [h]

/-- C4.  `_read_versions` returns the error result (`None`) whenever no
`upload_1` directory exists; it never creates a version directory (the
returned working version directory already exists in the input filesystem,
pre-created by the operator — the function itself only reads); and a
missing historical metadata document for any index below the resolved
current version makes the whole call return the error result instead of
skipping that version. -/
theorem readVersions_spec (fs : CollatorFS) (fuel : Nat) (hfuel : 0 < fuel) :
    (fs.isVersionDir 1 = false → readVersions fs fuel = none) ∧
    (∀ version hist, readVersions fs fuel = some (version, hist) →
      fs.isVersionDir version = true) ∧
    (∀ version v, firstMissing fs.isVersionDir fuel 1 = some (version + 1) →
      1 ≤ v → v < version → fs.metaFile v = none →
      readVersions fs fuel = none) := by
  refine ⟨?_, ?_, ?_⟩
  · intro hno
    obtain ⟨f, rfl⟩ : ∃ f, fuel = f + 1 := ⟨fuel - 1, by omega⟩
    have hscan : firstMissing fs.isVersionDir (f + 1) 1 = some 1 := by
      unfold firstMissing
      rw [hno]
      simp
    rw [readVersions_eq_of_scan fs (f + 1) 1 hscan]
    simp
  · intro version hist h
    cases hscan : firstMissing fs.isVersionDir fuel 1 with
    | none => rw [readVersions_eq_none_of_scan_none fs fuel hscan] at h; cases h
    | some vnext =>
      rw [readVersions_eq_of_scan fs fuel vnext hscan] at h
      by_cases h1 : vnext = 1
      · rw [if_pos h1] at h; cases h
      · rw [if_neg h1] at h
        cases hh : readHistory fs (List.range' 1 (vnext - 1 - 1)) with
        | none => rw [hh] at h; cases h
        | some hist' =>
          rw [hh] at h
          simp only [Option.some.injEq, Prod.mk.injEq] at h
          obtain ⟨hv, _⟩ := h
          obtain ⟨hle, _, hall⟩ := firstMissing_invariant fs.isVersionDir fuel 1 vnext hscan
          subst hv
          exact hall (vnext - 1) (by omega) (by omega)
  · intro version v hscan hv1 hvlt hmiss
    rw [readVersions_eq_of_scan fs fuel (version + 1) hscan]
    have h1 : ¬(version + 1 = 1) := by omega
    rw [if_neg h1]
    have hmem : v ∈ List.range' 1 (version + 1 - 1 - 1) := by
      rw [List.mem_range'_1]
      omega
    rw [readHistory_none_of_mem fs v _ hmem hmiss]

/-- A small concrete filesystem: only `upload_1` exists, with no historical
metadata, no pre-existing `crystallographic` dir and no input files. -/
def sampleFS : CollatorFS :=
  { isVersionDir := fun v => v == 1
    metaFile := fun _ => none
    crystDirExists := false
    content := fun _ => none }

/-- Concrete instantiation of `readVersions_spec` on `sampleFS` with fuel 3. -/
theorem readVersions_spec_witness :
    (sampleFS.isVersionDir 1 = false → readVersions sampleFS 3 = none) ∧
    (∀ version hist, readVersions sampleFS 3 = some (version, hist) →
      sampleFS.isVersionDir version = true) ∧
    (∀ version v, firstMissing sampleFS.isVersionDir 3 1 = some (version + 1) →
      1 ≤ v → v < version → sampleFS.metaFile v = none →
      readVersions sampleFS 3 = none) :=
  readVersions_spec sampleFS 3 (by decide)

theorem copyEntry_effs (content : String → Option (List Nat)) (hash : List Nat → String)
    (base vdirStr : String) (v : Nat) (name fname : String) (entry : Option FVal) :
    ∀ e ∈ (copyEntry content hash base vdirStr v name fname entry).2,
      e.version = v ∧ e.rel ≠ [] := by
  intro e he
  cases entry with
  | none => simp [copyEntry] at he
  | some fv =>
    cases fv with
    | ingested f s => simp [copyEntry] at he
    | path p =>
      unfold copyEntry at he
      dsimp only at he
      cases hc : content (prependBase base p) with
      | none => rw [hc] at he; simp at he
      | some bytes =>
        rw [hc] at he
        simp only [List.mem_singleton] at he
        subst he
        exact ⟨rfl, by simp⟩

theorem copyXtal_effs (content : String → Option (List Nat)) (hash : List Nat → String)
    (base vdirStr : String) (v : Nat) (name : String) (data : XtalData) :
    ∀ e ∈ (copyXtal content hash base vdirStr v name data).2,
      e.version = v ∧ e.rel ≠ [] := by
  intro e he
  have h1 := copyEntry_effs content hash base vdirStr v name (name ++ ".pdb") data.files.xtal_pdb
  have h2 := copyEntry_effs content hash base vdirStr v name (name ++ ".mtz") data.files.xtal_mtz
  have h3 := copyEntry_effs content hash base vdirStr v name (name ++ ".cif") data.files.ligand_cif
  have hmk : ∀ x ∈ [(⟨.mkdirE, v, ["crystallographic", name]⟩ : Eff)],
      x.version = v ∧ x.rel ≠ [] := by
    intro x hx
    simp only [List.mem_singleton] at hx
    subst hx
    exact ⟨rfl, by simp⟩
  unfold copyXtal at he
  rcases hc1 : copyEntry content hash base vdirStr v name (name ++ ".pdb") data.files.xtal_pdb
    with ⟨o1, f1⟩
  rw [hc1] at he h1
  cases o1 with
  | none =>
    simp only [List.mem_append] at he
    rcases he with he | he
    · exact hmk e he
    · exact h1 e he
  | some pr1 =>
    obtain ⟨pdb', w1⟩ := pr1
    rcases hc2 : copyEntry content hash base vdirStr v name (name ++ ".mtz") data.files.xtal_mtz
      with ⟨o2, f2⟩
    rw [hc2] at he h2
    cases o2 with
    | none =>
      simp only [List.mem_append] at he
      rcases he with (he | he) | he
      · exact hmk e he
      · exact h1 e he
      · exact h2 e he
    | some pr2 =>
      obtain ⟨mtz', w2⟩ := pr2
      rcases hc3 : copyEntry content hash base vdirStr v name (name ++ ".cif") data.files.ligand_cif
        with ⟨o3, f3⟩
      rw [hc3] at he h3
      cases o3 with
      | none =>
        simp only [List.mem_append] at he
        rcases he with ((he | he) | he) | he
        · exact hmk e he
        · exact h1 e he
        · exact h2 e he
        · exact h3 e he
      | some pr3 =>
        obtain ⟨cif', w3⟩ := pr3
        simp only [List.mem_append] at he
        rcases he with ((he | he) | he) | he
        · exact hmk e he
        · exact h1 e he
        · exact h2 e he
        · exact h3 e he

theorem copyFilesGo_effs (content : String → Option (List Nat)) (hash : List Nat → String)
    (base vdirStr : String) (v : Nat) :
    ∀ (l : List (String × XtalData)),
      ∀ e ∈ (copyFilesGo content hash base vdirStr v l).2,
        e.version = v ∧ e.rel ≠ [] := by
  intro l
  induction l with
  | nil => intro e he; simp [copyFilesGo] at he
  | cons a t ih =>
    obtain ⟨name, data⟩ := a
    intro e he
    have hx := copyXtal_effs content hash base vdirStr v name data
    unfold copyFilesGo at he
    rcases hc : copyXtal content hash base vdirStr v name data with ⟨o, effs⟩
    rw [hc] at he hx
    cases o with
    | none => exact hx e he
    | some pr =>
      obtain ⟨d', w⟩ := pr
      rcases hg : copyFilesGo content hash base vdirStr v t with ⟨og, effs'⟩
      rw [hg] at he
      have hge : ∀ x ∈ effs', x.version = v ∧ x.rel ≠ [] := by
        intro x hxm
        have := ih x
        rw [hg] at this
        exact this hxm
      cases og with
      | none =>
        simp only [List.mem_append] at he
        rcases he with he | he
        · exact hx e he
        · exact hge e he
      | some prg =>
        simp only [List.mem_append] at he
        rcases he with he | he
        · exact hx e he
        · exact hge e he

theorem copyFiles_effs (content : String → Option (List Nat)) (hash : List Nat → String)
    (base vdirStr : String) (v : Nat) (cde : Bool) (meta : MetaDoc) :
    ∀ e ∈ (copyFiles content hash base vdirStr v cde meta).2,
      e.version = v ∧ e.rel ≠ [] := by
  intro e he
  have hif : ∀ x, x ∈ (if cde then [(⟨.removeTreeE, v, ["crystallographic"]⟩ : Eff)] else []) →
      x.version = v ∧ x.rel ≠ [] := by
    intro x hx
    cases cde with
    | true =>
      simp only [if_pos] at hx
      simp only [List.mem_singleton] at hx
      subst hx
      exact ⟨rfl, by simp⟩
    | false => simp at hx
  have hmk : ∀ x, x ∈ [(⟨.mkdirE, v, ["crystallographic"]⟩ : Eff)] →
      x.version = v ∧ x.rel ≠ [] := by
    intro x hx
    simp only [List.mem_singleton] at hx
    subst hx
    exact ⟨rfl, by simp⟩
  unfold copyFiles at he
  rcases hg : copyFilesGo content hash base vdirStr v meta.crystals with ⟨og, effs⟩
  rw [hg] at he
  have hgo : ∀ x ∈ effs, x.version = v ∧ x.rel ≠ [] := by
    intro x hx
    have h := copyFilesGo_effs content hash base vdirStr v meta.crystals x
    rw [hg] at h
    exact h hx
  cases og with
  | none =>
    simp only [List.mem_append] at he
    rcases he with (he | he) | he
    · exact hif e he
    · exact hmk e he
    · exact hgo e he
  | some pr =>
    obtain ⟨crystals', written⟩ := pr
    simp only [List.mem_append] at he
    rcases he with (he | he) | he
    · exact hif e he
    · exact hmk e he
    · exact hgo e he

/-- C5.  Every write effect of a collation run lands strictly inside the
highest-numbered (current) version directory `upload_<version>`: its
version index is the resolved current one and its relative path is
non-empty, so no file of any prior version directory is created, modified
or deleted, and no version directory itself is created or removed (in
particular re-running against identical inputs produces no new version
and leaves prior versions byte-identical). -/
theorem collatorRun_frame (fs : CollatorFS) (hash : List Nat → String)
    (base outputDir configBase : String) (deps : List (String × String))
    (fuel : Nat) (meta : MetaDoc) (vv : Nat)
    (hscan : firstMissing fs.isVersionDir fuel 1 = some (vv + 1)) :
    ∀ e ∈ (collatorRun fs hash base outputDir configBase deps fuel meta).2,
      e.version = vv ∧ e.rel ≠ [] := by
  intro e he
  by_cases hz : vv = 0
  · subst hz
    have hrv : readVersions fs fuel = none := by
      rw [readVersions_eq_of_scan fs fuel (0 + 1) hscan]
      simp
    unfold collatorRun at he
    rw [hrv] at he
    simp at he
  · have hne : ¬(vv + 1 = 1) := by omega
    have hrv0 := readVersions_eq_of_scan fs fuel (vv + 1) hscan
    rw [if_neg hne] at hrv0
    simp only [Nat.add_sub_cancel] at hrv0
    cases hh : readHistory fs (List.range' 1 (vv - 1)) with
    | none =>
      rw [hh] at hrv0
      unfold collatorRun at he
      rw [hrv0] at he
      simp at he
    | some hist =>
      rw [hh] at hrv0
      unfold collatorRun at he
      rw [hrv0] at he
      dsimp only at he
      rcases hcf : copyFiles fs.content hash base (joinP outputDir ("upload_" ++ toString vv))
          vv fs.crystDirExists meta with ⟨ocf, effs⟩
      rw [hcf] at he
      have hce : ∀ x ∈ effs, x.version = vv ∧ x.rel ≠ [] := by
        intro x hx
        have h := copyFiles_effs fs.content hash base
          (joinP outputDir ("upload_" ++ toString vv)) vv fs.crystDirExists meta x
        rw [hcf] at h
        exact h hx
      cases ocf with
      | none => dsimp only at he; exact hce e he
      | some pr2 =>
        obtain ⟨newMeta, written⟩ := pr2
        dsimp only at he
        cases hm : mungeHistory hist newMeta.crystals deps with
        | none => rw [hm] at he; dsimp only at he; exact hce e he
        | some res =>
          rw [hm] at he
          dsimp only at he
          simp only [List.mem_append] at he
          rcases he with (he | he) | he
          · exact hce e he
          · simp only [writeMetadataEffs, List.mem_cons, List.mem_singleton,
              List.not_mem_nil, or_false] at he
            rcases he with he | he | he <;> (subst he; exact ⟨rfl, by simp⟩)
          · simp only [List.mem_singleton] at he
            subst he
            exact ⟨rfl, by simp⟩

/-- Concrete instantiation of `collatorRun_frame` on `sampleFS` (only
`upload_1` exists, so the current version is 1), applied to the
`crystallographic`-dir creation effect of that run's trace. -/
theorem collatorRun_frame_witness :
    (Eff.mk .mkdirE 1 ["crystallographic"]).version = 1 ∧
    (Eff.mk .mkdirE 1 ["crystallographic"]).rel ≠ [] :=
  collatorRun_frame sampleFS (fun _ => "h") "" "out" "config.yaml" [] 3 ⟨[]⟩ 1 (by decide)
    (Eff.mk .mkdirE 1 ["crystallographic"]) (by decide)

/-! ### Claim C6: integrity of `_copy_files` -/

/-- Relation between a file entry before and after `_copy_files`: a null
entry stays null; a path entry becomes `{file, sha256}` where the digest
is the hash of the bytes of the copied file (recorded in `written`),
which `shutil.copy2` took unchanged from the source. -/
def ingestedEntry (content : String → Option (List Nat)) (hash : List Nat → String)
    (base vdirStr name fname : String) (old new : Option FVal)
    (written : List (String × List Nat)) : Prop :=
  (old = none → new = none) ∧
  (∀ p, old = some (.path p) →
    ∃ bytes, content (prependBase base p) = some bytes ∧
      new = some (.ingested (outPath vdirStr name fname) (hash bytes)) ∧
      (outPath vdirStr name fname, bytes) ∈ written)

theorem ingestedEntry_mono (content : String → Option (List Nat)) (hash : List Nat → String)
    (base vdirStr name fname : String) (old new : Option FVal)
    (w written : List (String × List Nat))
    (h : ingestedEntry content hash base vdirStr name fname old new w)
    (hsub : ∀ x ∈ w, x ∈ written) :
    ingestedEntry content hash base vdirStr name fname old new written := by
  obtain ⟨h1, h2⟩ := h
  refine ⟨h1, fun p hp => ?_⟩
  obtain ⟨bytes, hb1, hb2, hb3⟩ := h2 p hp
  exact ⟨bytes, hb1, hb2, hsub _ hb3⟩

theorem copyEntry_spec (content : String → Option (List Nat)) (hash : List Nat → String)
    (base vdirStr : String) (v : Nat) (name fname : String)
    (entry o : Option FVal) (wr : List (String × List Nat)) (effs : List Eff)
    (h : copyEntry content hash base vdirStr v name fname entry = (some (o, wr), effs)) :
    ingestedEntry content hash base vdirStr name fname entry o wr := by
  constructor
  · intro he
    subst he
    unfold copyEntry at h
    simp only [Prod.mk.injEq, Option.some.injEq] at h
    exact h.1.1.symm
  · intro p hp
    subst hp
    unfold copyEntry at h
    dsimp only at h
    cases hc : content (prependBase base p) with
    | none => rw [hc] at h; simp at h
    | some bytes =>
      rw [hc] at h
      simp only [Prod.mk.injEq, Option.some.injEq] at h
      exact ⟨bytes, rfl, h.1.1.symm, by rw [← h.1.2]; exact List.mem_singleton.mpr rfl⟩

theorem copyXtal_spec (content : String → Option (List Nat)) (hash : List Nat → String)
    (base vdirStr : String) (v : Nat) (name : String) (data d' : XtalData)
    (w : List (String × List Nat)) (effsX : List Eff)
    (h : copyXtal content hash base vdirStr v name data = (some (d', w), effsX)) :
    d'.last_updated = data.last_updated ∧
    ingestedEntry content hash base vdirStr name (name ++ ".pdb")
      data.files.xtal_pdb d'.files.xtal_pdb w ∧
    ingestedEntry content hash base vdirStr name (name ++ ".mtz")
      data.files.xtal_mtz d'.files.xtal_mtz w ∧
    ingestedEntry content hash base vdirStr name (name ++ ".cif")
      data.files.ligand_cif d'.files.ligand_cif w := by
  unfold copyXtal at h
  rcases hc1 : copyEntry content hash base vdirStr v name (name ++ ".pdb") data.files.xtal_pdb
    with ⟨o1, f1⟩
  rw [hc1] at h
  cases o1 with
  | none => simp at h
  | some pr1 =>
    obtain ⟨pdb', w1⟩ := pr1
    rcases hc2 : copyEntry content hash base vdirStr v name (name ++ ".mtz") data.files.xtal_mtz
      with ⟨o2, f2⟩
    rw [hc2] at h
    cases o2 with
    | none => simp at h
    | some pr2 =>
      obtain ⟨mtz', w2⟩ := pr2
      rcases hc3 : copyEntry content hash base vdirStr v name (name ++ ".cif") data.files.ligand_cif
        with ⟨o3, f3⟩
      rw [hc3] at h
      cases o3 with
      | none => simp at h
      | some pr3 =>
        obtain ⟨cif', w3⟩ := pr3
        simp only [Prod.mk.injEq, Option.some.injEq] at h
        obtain ⟨⟨hd', hw⟩, _⟩ := h
        subst hd'
        subst hw
        refine ⟨rfl, ?_, ?_, ?_⟩
        · exact ingestedEntry_mono _ _ _ _ _ _ _ _ _ _
            (copyEntry_spec _ _ _ _ _ _ _ _ _ _ _ hc1)
            (fun x hx => List.mem_append_left _ (List.mem_append_left _ hx))
        · exact ingestedEntry_mono _ _ _ _ _ _ _ _ _ _
            (copyEntry_spec _ _ _ _ _ _ _ _ _ _ _ hc2)
            (fun x hx => List.mem_append_left _ (List.mem_append_right _ hx))
        · exact ingestedEntry_mono _ _ _ _ _ _ _ _ _ _
            (copyEntry_spec _ _ _ _ _ _ _ _ _ _ _ hc3)
            (fun x hx => List.mem_append_right _ hx)

theorem copyFilesGo_lookup (content : String → Option (List Nat)) (hash : List Nat → String)
    (base vdirStr : String) (v : Nat) :
    ∀ (l₁ : List (String × XtalData)) (name : String) (data : XtalData)
      (l₂ out : List (String × XtalData)) (written : List (String × List Nat))
      (effs : List Eff),
      copyFilesGo content hash base vdirStr v (l₁ ++ (name, data) :: l₂)
        = (some (out, written), effs) →
      name ∉ l₁.map Prod.fst →
      ∃ d' w effsX, copyXtal content hash base vdirStr v name data = (some (d', w), effsX) ∧
        lookup name out = some d' ∧ ∀ x ∈ w, x ∈ written := by
  intro l₁
  induction l₁ with
  | nil =>
    intro name data l₂ out written effs h _
    rw [List.nil_append] at h
    unfold copyFilesGo at h
    rcases hx : copyXtal content hash base vdirStr v name data with ⟨ox, effsX⟩
    rw [hx] at h
    cases ox with
    | none => simp at h
    | some prx =>
      obtain ⟨d', w⟩ := prx
      rcases hg : copyFilesGo content hash base vdirStr v l₂ with ⟨og, effs'⟩
      rw [hg] at h
      cases og with
      | none => simp at h
      | some prg =>
        obtain ⟨tail, w₂⟩ := prg
        simp only [Prod.mk.injEq, Option.some.injEq] at h
        obtain ⟨⟨hout, hw⟩, _⟩ := h
        subst hout
        subst hw
        refine ⟨d', w, effsX, rfl, ?_, fun x hx' => List.mem_append_left _ hx'⟩
        simp [lookup]
  | cons a t ih =>
    intro name data l₂ out written effs h hni
    obtain ⟨an, ad⟩ := a
    rw [List.cons_append] at h
    unfold copyFilesGo at h
    rcases hx : copyXtal content hash base vdirStr v an ad with ⟨ox, effsA⟩
    rw [hx] at h
    cases ox with
    | none => simp at h
    | some prx =>
      obtain ⟨da, wa⟩ := prx
      rcases hg : copyFilesGo content hash base vdirStr v (t ++ (name, data) :: l₂)
        with ⟨og, effs'⟩
      rw [hg] at h
      cases og with
      | none => simp at h
      | some prg =>
        obtain ⟨tail, wt⟩ := prg
        simp only [Prod.mk.injEq, Option.some.injEq] at h
        obtain ⟨⟨hout, hw⟩, _⟩ := h
        subst hout
        subst hw
        simp only [List.map_cons, List.mem_cons] at hni
        push_neg at hni
        obtain ⟨d', w, effsX, hxt, hlk, hsub⟩ := ih name data l₂ tail wt effs' hg hni.2
        refine ⟨d', w, effsX, hxt, ?_, fun x hx' => List.mem_append_right _ (hsub x hx')⟩
        rw [lookup_cons]
        rw [if_neg (fun he => hni.1 he.symm)]
        exact hlk

/-- C6.  For every crystal of the metadata processed by a successful
`_copy_files`: a file entry that is a path is replaced by
`{file: <copied path>, sha256: <digest>}` where the digest is the hash of
the bytes of the copied file (the pair `(copied path, bytes)` is among the
files written, and the bytes are those of the source file, preserved by
`shutil.copy2`); a null entry stays null.  Moreover null entries never by
themselves make ingestion fail: a crystal whose three entries are all null
is processed successfully and unchanged. -/
theorem copyFiles_integrity (content : String → Option (List Nat)) (hash : List Nat → String)
    (base vdirStr : String) (v : Nat) (cde : Bool) (meta meta' : MetaDoc)
    (written : List (String × List Nat)) (l₁ l₂ : List (String × XtalData))
    (name : String) (data : XtalData)
    (hres : (copyFiles content hash base vdirStr v cde meta).1 = some (meta', written))
    (hsplit : meta.crystals = l₁ ++ (name, data) :: l₂)
    (hl₁ : name ∉ l₁.map Prod.fst) :
    (∃ d', lookup name meta'.crystals = some d' ∧
      ingestedEntry content hash base vdirStr name (name ++ ".pdb")
        data.files.xtal_pdb d'.files.xtal_pdb written ∧
      ingestedEntry content hash base vdirStr name (name ++ ".mtz")
        data.files.xtal_mtz d'.files.xtal_mtz written ∧
      ingestedEntry content hash base vdirStr name (name ++ ".cif")
        data.files.ligand_cif d'.files.ligand_cif written) ∧
    (∀ nm lu st rs, (copyXtal content hash base vdirStr v nm ⟨lu, st, rs, F0⟩).1
      = some (⟨lu, st, rs, F0⟩, [])) := by
  constructor
  · unfold copyFiles at hres
    rcases hg : copyFilesGo content hash base vdirStr v meta.crystals with ⟨og, effs⟩
    rw [hg] at hres
    cases og with
    | none => simp at hres
    | some pr =>
      obtain ⟨crystals', written'⟩ := pr
      simp only [Option.some.injEq, Prod.mk.injEq] at hres
      obtain ⟨hm', hw'⟩ := hres
      rw [hsplit] at hg
      obtain ⟨d', w, effsX, hxt, hlk, hsub⟩ :=
        copyFilesGo_lookup content hash base vdirStr v l₁ name data l₂ crystals'
          written' effs hg hl₁
      obtain ⟨_, hpdb, hmtz, hcif⟩ :=
        copyXtal_spec content hash base vdirStr v name data d' w effsX hxt
      refine ⟨d', ?_, ?_, ?_, ?_⟩
      · rw [← hm']
        exact hlk
      · rw [← hw']
        exact ingestedEntry_mono _ _ _ _ _ _ _ _ _ _ hpdb hsub
      · rw [← hw']
        exact ingestedEntry_mono _ _ _ _ _ _ _ _ _ _ hmtz hsub
      · rw [← hw']
        exact ingestedEntry_mono _ _ _ _ _ _ _ _ _ _ hcif hsub
  · intro nm lu st rs
    rfl

/-- Concrete instantiation of `copyFiles_integrity`: a single crystal `x`
with only a PDB path, whose source bytes are `[7]`. -/
theorem copyFiles_integrity_witness :
    (∃ d', lookup "x"
        (MetaDoc.mk [("x", ⟨none, none, none,
          ⟨some (.ingested "vd/crystallographic/x/x.pdb" "H"), none, none⟩⟩)]).crystals
        = some d' ∧
      ingestedEntry (fun p => if p = "b/x.pdb" then some [7] else none) (fun _ => "H")
        "b" "vd" "x" ("x" ++ ".pdb") (some (.path "x.pdb")) d'.files.xtal_pdb
        [("vd/crystallographic/x/x.pdb", [7])] ∧
      ingestedEntry (fun p => if p = "b/x.pdb" then some [7] else none) (fun _ => "H")
        "b" "vd" "x" ("x" ++ ".mtz") none d'.files.xtal_mtz
        [("vd/crystallographic/x/x.pdb", [7])] ∧
      ingestedEntry (fun p => if p = "b/x.pdb" then some [7] else none) (fun _ => "H")
        "b" "vd" "x" ("x" ++ ".cif") none d'.files.ligand_cif
        [("vd/crystallographic/x/x.pdb", [7])]) ∧
    (∀ nm lu st rs, (copyXtal (fun p => if p = "b/x.pdb" then some [7] else none)
        (fun _ => "H") "b" "vd" 1 nm ⟨lu, st, rs, F0⟩).1 = some (⟨lu, st, rs, F0⟩, [])) :=
  copyFiles_integrity (fun p => if p = "b/x.pdb" then some [7] else none) (fun _ => "H")
    "b" "vd" 1 false
    ⟨[("x", ⟨none, none, none, ⟨some (.path "x.pdb"), none, none⟩⟩)]⟩
    ⟨[("x", ⟨none, none, none,
      ⟨some (.ingested "vd/crystallographic/x/x.pdb" "H"), none, none⟩⟩)]⟩
    [("vd/crystallographic/x/x.pdb", [7])] [] [] "x"
    ⟨none, none, none, ⟨some (.path "x.pdb"), none, none⟩⟩
    (by decide) (by decide) (by decide)

/-! ### Claim C10: `Validator.validate_metadata` (validator.py lines 149-220)

A database row carries the crystal name, the three file columns and the
last-updated date.  A column that is `NULL` or empty in the database (both
falsy in `if file:`) is `none`; dates are modelled as `Nat` (the code only
formats them).  The filesystem is the `os.path.isfile` predicate used by
`_check_file_exists`. -/

structure DBRow : Type where
  crystalName : String
  pdb : Option String
  mtz : Option String
  cif : Option String
  lastUpdated : Option Nat
  deriving DecidableEq, Repr

/-- The per-crystal record placed in `meta['crystals']`: the optional
`last_updated` key (omitted when the row has no date) and the three
expanded file entries of `crystallographic_files`. -/
structure VXtal : Type where
  last_updated : Option Nat
  xtal_pdb : Option String
  xtal_mtz : Option String
  ligand_cif : Option String
  deriving DecidableEq, Repr

/-- `os.path.isabs`, written on the character list so it evaluates in the
kernel. -/
def isAbs (p : String) : Bool :=
  match p.data with
  | [] => false
  | c :: _ => c = '/'

/-- `validator.generate_xtal_dir` (validator.py lines 29-37). -/
def generateXtalDir (inputDir xtalName : String) : String :=
  joinP (joinP (joinP (joinP inputDir "processing") "analysis") "model_building") xtalName

/-- The input path computed by `validator.generate_filenames` (validator.py
lines 54-65); `validate_metadata` passes an empty output dir and uses only
the input path. -/
def generateFilenames (filepath xtalDir : String) : String :=
  if isAbs filepath then filepath else joinP xtalDir filepath

/-- Handling of one file column of a row (validator.py lines 177-195):
an empty column expands to `None` without counting as missing; a non-empty
column is expanded to its input path when the file exists, and counts as
missing (`none` here, modelling `missing_files > 0`) when it does not. -/
def checkCol (fs : String → Bool) (base inputDir xtalName : String) (col : Option String) :
    Option (Option String) :=
  match col with
  | none => some none
  | some file =>
    let inputpath := generateFilenames file (generateXtalDir inputDir xtalName)
    if fs (prependBase base inputpath) then some (some inputpath) else none

/-- Whether a row passes `validate_metadata`'s checks: non-empty crystal
name and every non-empty file column existing on disk. -/
def validRow (fs : String → Bool) (base inputDir : String) (r : DBRow) : Bool :=
  !(r.crystalName = "")
    && (checkCol fs base inputDir r.crystalName r.pdb).isSome
    && (checkCol fs base inputDir r.crystalName r.mtz).isSome
    && (checkCol fs base inputDir r.crystalName r.cif).isSome

/-- The record built for a valid row (validator.py lines 206-216):
`last_updated` only when the row has a date, and the three expanded
entries. -/
def rowOut (fs : String → Bool) (base inputDir : String) (r : DBRow) : VXtal :=
  ⟨r.lastUpdated,
   (checkCol fs base inputDir r.crystalName r.pdb).join,
   (checkCol fs base inputDir r.crystalName r.mtz).join,
   (checkCol fs base inputDir r.crystalName r.cif).join⟩

/-- Processing of one row (validator.py lines 167-216): a row with an
empty crystal name is skipped; a row with any missing file is skipped
(`missing_files > 0`); otherwise its record overwrites any earlier record
for the same crystal name. -/
def processRow (fs : String → Bool) (base : String) (acc : List (String × VXtal))
    (e : String × DBRow) : List (String × VXtal) :=
  let (inputDir, r) := e
  if r.crystalName = "" then acc
  else
    match checkCol fs base inputDir r.crystalName r.pdb,
          checkCol fs base inputDir r.crystalName r.mtz,
          checkCol fs base inputDir r.crystalName r.cif with
    | some p1, some p2, some p3 =>
      upsert r.crystalName ⟨r.lastUpdated, p1, p2, p3⟩ acc
    | _, _, _ => acc

/-- The rows of all input dirs in processing order (the two nested loops of
validator.py lines 161-167 flattened). -/
def dirRows (inputDirs : List (String × List DBRow)) : List (String × DBRow) :=
  inputDirs.foldl (fun a d => a ++ d.2.map (fun r => (d.1, r))) []

/-- The `crystals` mapping produced by `Validator.validate_metadata`
(validator.py lines 149-220); the document's fixed `run_on` /
`input_dirs` / `output_dir` keys carry no per-crystal information and are
not modelled. -/
def validateMetadata (fs : String → Bool) (base : String)
    (inputDirs : List (String × List DBRow)) : List (String × VXtal) :=
  (dirRows inputDirs).foldl (processRow fs base) []

/-- The last row (in processing order) for `name` that passes the checks:
the one whose data the output keeps. -/
def lastValidRow (fs : String → Bool) (base name : String) :
    List (String × DBRow) → Option (String × DBRow)
  | [] => none
  | e :: rest =>
    match lastValidRow fs base name rest with
    | some r => some r
    | none =>
      if e.2.crystalName = name && validRow fs base e.1 e.2 then some e else none

theorem processRow_eq (fs : String → Bool) (base : String) (acc : List (String × VXtal))
    (inputDir : String) (r : DBRow) :
    processRow fs base acc (inputDir, r) =
      if validRow fs base inputDir r
      then upsert r.crystalName (rowOut fs base inputDir r) acc
      else acc := by
  unfold processRow validRow rowOut
  dsimp only
  by_cases hn : r.crystalName = ""
  · simp [hn]
  · rw [if_neg hn]
    cases h1 : checkCol fs base inputDir r.crystalName r.pdb with
    | none => simp [hn, h1]
    | some p1 =>
      cases h2 : checkCol fs base inputDir r.crystalName r.mtz with
      | none => simp [hn, h1, h2]
      | some p2 =>
        cases h3 : checkCol fs base inputDir r.crystalName r.cif with
        | none => simp [hn, h1, h2, h3]
        | some p3 => simp [hn, h1, h2, h3, Option.join]

theorem lookup_foldProcess (fs : String → Bool) (base name : String) :
    ∀ (rows : List (String × DBRow)) (acc : List (String × VXtal)),
      lookup name (rows.foldl (processRow fs base) acc) =
        match lastValidRow fs base name rows with
        | some e => some (rowOut fs base e.1 e.2)
        | none => lookup name acc := by
  intro rows
  induction rows with
  | nil => intro acc; rfl
  | cons e rest ih =>
    intro acc
    obtain ⟨inputDir, r⟩ := e
    rw [List.foldl_cons, ih]
    cases hl : lastValidRow fs base name rest with
    | some e' =>
      show _ = (match lastValidRow fs base name ((inputDir, r) :: rest) with
        | some e => some (rowOut fs base e.1 e.2)
        | none => lookup name acc)
      unfold lastValidRow
      rw [hl]
    | none =>
      show lookup name (processRow fs base acc (inputDir, r))
          = (match lastValidRow fs base name ((inputDir, r) :: rest) with
        | some e => some (rowOut fs base e.1 e.2)
        | none => lookup name acc)
      unfold lastValidRow
      rw [hl]
      rw [processRow_eq]
      by_cases hv : validRow fs base inputDir r = true
      · simp only [hv, if_true]
        by_cases he : r.crystalName = name
        · subst he
          rw [lookup_upsert_self]
          simp [hv]
        · rw [lookup_upsert_ne _ _ _ _ he]
          simp [he]
      · simp only [Bool.not_eq_true] at hv
        simp [hv]

/-- C10 counterexample.  Two rows share crystal name `X`: the first is
valid (its PDB `/p1.pdb` exists) and the second is invalid (its PDB
`/p2.pdb` does not exist).  The output keeps the *first* row's data
(`last_updated = 5`): the later row does not replace the earlier one
(which the claim's "later row's data fully replaces the earlier" requires),
nor is the crystal excluded (which the claim's "if and only if" reading,
applied to the later row, would require). -/
theorem validateMetadata_counterexample :
    validateMetadata (fun p => p == "/p1.pdb") ""
        [("in", [⟨"X", some "/p1.pdb", none, none, some 5⟩,
                 ⟨"X", some "/p2.pdb", none, none, some 9⟩])]
      = [("X", ⟨some 5, some "/p1.pdb", none, none⟩)]
    ∧ (VXtal.mk (some 5) (some "/p1.pdb") none none).last_updated ≠ some 9 :=
  ⟨by decide, by decide⟩

/-- C10 (amended).  `validate_metadata` includes a crystal in the output
mapping iff some row with its (non-empty) name passes the check that every
non-empty file column refers to an existing file, and the record kept is
that of the *last such valid* row (an invalid later row does not replace an
earlier valid one); a column that is empty in the database is recorded as
null without excluding the crystal; and the `last_updated` key is exactly
the row's optional date (omitted when the row has none). -/
theorem validateMetadata_spec (fs : String → Bool) (base : String)
    (inputDirs : List (String × List DBRow)) (name : String) :
    (lookup name (validateMetadata fs base inputDirs) =
      match lastValidRow fs base name (dirRows inputDirs) with
      | some e => some (rowOut fs base e.1 e.2)
      | none => none) ∧
    (∀ inputDir r, r.pdb = none → (rowOut fs base inputDir r).xtal_pdb = none) ∧
    (∀ inputDir r, r.mtz = none → (rowOut fs base inputDir r).xtal_mtz = none) ∧
    (∀ inputDir r, r.cif = none → (rowOut fs base inputDir r).ligand_cif = none) ∧
    (∀ inputDir r, (rowOut fs base inputDir r).last_updated = r.lastUpdated) := by
  refine ⟨?_, ?_, ?_, ?_, ?_⟩
  · unfold validateMetadata
    rw [lookup_foldProcess]
    cases lastValidRow fs base name (dirRows inputDirs) with
    | none => rfl
    | some e => rfl
  · intro inputDir r h
    simp [rowOut, checkCol, h, Option.join]
  · intro inputDir r h
    simp [rowOut, checkCol, h, Option.join]
  · intro inputDir r h
    simp [rowOut, checkCol, h, Option.join]
  · intro inputDir r
    rfl

/-- Concrete instantiation of `validateMetadata_spec` at the two-row
input of the counterexample. -/
theorem validateMetadata_spec_witness :
    (lookup "X" (validateMetadata (fun p => p == "/p1.pdb") ""
        [("in", [⟨"X", some "/p1.pdb", none, none, some 5⟩,
                 ⟨"X", some "/p2.pdb", none, none, some 9⟩])]) =
      match lastValidRow (fun p => p == "/p1.pdb") "" "X"
          (dirRows [("in", [⟨"X", some "/p1.pdb", none, none, some 5⟩,
                            ⟨"X", some "/p2.pdb", none, none, some 9⟩])]) with
      | some e => some (rowOut (fun p => p == "/p1.pdb") "" e.1 e.2)
      | none => none) ∧
    (∀ inputDir r, r.pdb = none →
      (rowOut (fun p => p == "/p1.pdb") "" inputDir r).xtal_pdb = none) ∧
    (∀ inputDir r, r.mtz = none →
      (rowOut (fun p => p == "/p1.pdb") "" inputDir r).xtal_mtz = none) ∧
    (∀ inputDir r, r.cif = none →
      (rowOut (fun p => p == "/p1.pdb") "" inputDir r).ligand_cif = none) ∧
    (∀ inputDir r, (rowOut (fun p => p == "/p1.pdb") "" inputDir r).last_updated
      = r.lastUpdated) :=
  validateMetadata_spec (fun p => p == "/p1.pdb") ""
    [("in", [⟨"X", some "/p1.pdb", none, none, some 5⟩,
             ⟨"X", some "/p2.pdb", none, none, some 9⟩])] "X"

/-! ### Aligner data model (aligner.py)

The 3-D alignment computation itself (`ligand_neighbourhood_alignment`'s
`_update`, the `_load_*` functions and `dt.FSModel`) and the structure
readers (`gemmi`) are external packages; their results — the documents read
back with `read_yaml` and the `fs_model.alignments` / dataset-assignment
mappings — are inputs of the model (`AlignInputs`).  The metadata assembly
(aligner.py lines 396-604) and the component extraction
(`_extract_components`, lines 606-669) are modelled from the source. -/

/-- An opaque pass-through document (conformer sites, canonical sites, …). -/
abbrev TableData : Type := List (String × String)

/-- Modelled from the spec: the output-document key names of
`utils.Constants` (the `utils` module is not under src/); §6 of the spec
names the sections `xtalforms`, `conformer_sites`, `canonical_sites`,
`xtalform_sites` and `transforms`. -/
def kXtalforms : String := "xtalforms"

def kConformerSites : String := "conformer_sites"

def kCanonicalSites : String := "canonical_sites"

def kXtalformSites : String := "xtalform_sites"

def kTransforms : String := "transforms"

/-- Modelled from the spec: the names of the two transform tables the code
writes (observation→conformer-site at aligner.py line 546, conformer-site→
canonical-site at line 571); the exact constant strings live in
`utils.Constants`, which is not under src/. -/
def kObsToConf : String := "observation_to_conformer"

def kConfToCanon : String := "conformer_to_canonical"

/-- The four aligned-file paths of one site occurrence as found in
`fs_model.alignments[dtag][chain][ligand]` (external `dt` data; the four
per-site maps are modelled as one map to a four-path record), plus the
optional derivative entries added later by `_extract_components`
(aligner.py lines 652-667), `none` until then. -/
structure AlignedOcc : Type where
  aligned_structure : String
  aligned_artefacts : String
  aligned_event_map : String
  aligned_xmap : String
  pdb_apo : Option String
  pdb_apo_solv : Option String
  pdb_apo_desolv : Option String
  ligand_mol : Option String
  ligand_pdb : Option String
  ligand_smiles : Option String
  deriving DecidableEq, Repr

/-- chain → ligand → site → occurrence paths. -/
abbrev DsOut : Type := List (String × List (String × List (String × AlignedOcc)))

/-- The per-dataset output record of the assembly loop (aligner.py lines
513-540): the assigned crystal form and the `aligned_files` tree. -/
structure CrystalOut : Type where
  assigned_xtalform : String
  aligned_files : DsOut
  deriving DecidableEq, Repr

/-- One value of the aligner's output document `new_meta`: a pass-through
section table, the transforms section, or a per-dataset record (the source
mixes all three in one dict). -/
inductive MVal : Type where
  | table (t : TableData)
  | transformsSection (t : List (String × TableData))
  | dataset (d : CrystalOut)
  deriving DecidableEq, Repr

/-- One crystal of the input metadata as the aligner reads it
(post-collation): the `file` paths of the `{file, sha256}` entries.
`cifEntry` distinguishes a missing `ligand_cif` key (`none`), a `null`
entry (`some none`) and an ingested file (`some (some f)`). -/
structure CrystalIn : Type where
  pdbFile : Option String
  mtzFile : Option String
  cifEntry : Option (Option String)
  status : String
  deriving DecidableEq, Repr

/-- The chained `.get` lookup of the ligand CIF in `_extract_components`
(aligner.py lines 626-631):
`crystals.get(k1).get('crystallographic_files', {}).get('ligand_cif', {}).get('file')`.
A missing `ligand_cif` key falls back to `{}` and yields `None`; a `null`
entry is returned as `None` by `.get` (the default applies only to missing
keys) and the following `.get('file')` raises `AttributeError` (`none`
here). -/
def cifFileOf (c : CrystalIn) : Option (Option String) :=
  match c.cifEntry with
  | none => some none
  | some none => none
  | some (some f) => some (some f)

/-- External alignment results consumed by the metadata assembly: the
documents read back via `read_yaml` from the updated fs model, the
dataset assignments, and `fs_model.alignments`.  `xtalformsMeta` stands
for the crystal-form block of lines 399-421, whose space-group/cell values
come from the external `gemmi` reader. -/
structure AlignInputs : Type where
  xtalformsMeta : TableData
  conformerSites : TableData
  canonicalSites : TableData
  xtalformSites : TableData
  assignedXtalforms : List (String × String)
  alignments : List (String × DsOut)
  obsToConfTransforms : TableData
  confToCanonTransforms : TableData

/-- Modelled from the spec: the extraction collaborator (`PDBXtal`, not
under src/) validates an aligned structure file and derives the apo /
solvent-only / desolvated and ligand files from it (§4.5 and the docstring
of `_extract_components`), abstracted as a file-existence predicate, a
validation predicate and name-derivation functions on the aligned
structure's path. -/
structure AlignFS : Type where
  isFile : String → Bool
  validateErrs : String → Bool
  apoOf : String → String
  apoSolvOf : String → String
  apoDesolvOf : String → String
  ligandMolOf : String → String
  ligandPdbOf : String → String
  smilesOf : String → String

/-- Handling of one site occurrence in `_extract_components` (aligner.py
lines 636-667): a missing aligned structure file or a failing validation
counts one error and leaves the entry unchanged; otherwise the apo
derivative entries are added, and the ligand entries too when the crystal
has a CIF file. -/
def extractOcc (fsA : AlignFS) (cif : Option String) (occ : AlignedOcc) :
    Nat × AlignedOcc :=
  let pdb := occ.aligned_structure
  if !(fsA.isFile pdb) then (1, occ)
  else if fsA.validateErrs pdb then (1, occ)
  else
    let base := { occ with
      pdb_apo := some (fsA.apoOf pdb)
      pdb_apo_solv := some (fsA.apoSolvOf pdb)
      pdb_apo_desolv := some (fsA.apoDesolvOf pdb) }
    match cif with
    | some _ =>
      (0, { base with
        ligand_mol := some (fsA.ligandMolOf pdb)
        ligand_pdb := some (fsA.ligandPdbOf pdb)
        ligand_smiles := some (fsA.smilesOf pdb) })
    | none => (0, base)

/-- The site loop (`for k4, v4 in v3.items()`). -/
def extractSites (fsA : AlignFS) (cif : Option String) :
    List (String × AlignedOcc) → Nat × List (String × AlignedOcc)
  | [] => (0, [])
  | (k, occ) :: rest =>
    ((extractOcc fsA cif occ).1 + (extractSites fsA cif rest).1,
     (k, (extractOcc fsA cif occ).2) :: (extractSites fsA cif rest).2)

/-- The ligand loop (`for k3, v3 in v2.items()`). -/
def extractLigands (fsA : AlignFS) (cif : Option String) :
    List (String × List (String × AlignedOcc)) →
      Nat × List (String × List (String × AlignedOcc))
  | [] => (0, [])
  | (k, sites) :: rest =>
    ((extractSites fsA cif sites).1 + (extractLigands fsA cif rest).1,
     (k, (extractSites fsA cif sites).2) :: (extractLigands fsA cif rest).2)

/-- The chain loop (`for k2, v2 in v1[aligned_files].items()`). -/
def extractChains (fsA : AlignFS) (cif : Option String) :
    DsOut → Nat × DsOut
  | [] => (0, [])
  | (k, ligands) :: rest =>
    ((extractLigands fsA cif ligands).1 + (extractChains fsA cif rest).1,
     (k, (extractLigands fsA cif ligands).2) :: (extractChains fsA cif rest).2)

/-- Extraction over one dataset entry. -/
def extractDataset (fsA : AlignFS) (cif : Option String) (d : CrystalOut) :
    Nat × CrystalOut :=
  ((extractChains fsA cif d.aligned_files).1,
   { d with aligned_files := (extractChains fsA cif d.aligned_files).2 })

/-- The keys skipped by `_extract_components` (aligner.py line 622). -/
def ignoreKeys : List String := [kConformerSites, kCanonicalSites, kXtalformSites]

/-- `Aligner._extract_components` (aligner.py lines 606-669): walk the
output document; dataset entries (the only values containing an
`aligned_files` key) outside `ignore_keys` are processed site by site,
errors being counted and never aborting the loop; `none` models the
`AttributeError` raised when the dataset's crystal record is missing or
its `ligand_cif` entry is `null` (see `cifFileOf`).  Returns the error
count and the updated document. -/
def extractComponents (fsA : AlignFS) (crystals : List (String × CrystalIn)) :
    List (String × MVal) → Option (Nat × List (String × MVal))
  | [] => some (0, [])
  | (k, v) :: rest =>
    match v with
    | .dataset d =>
      if k ∈ ignoreKeys then
        (extractComponents fsA crystals rest).map (fun r => (r.1, (k, v) :: r.2))
      else
        match lookup k crystals with
        | none => none
        | some cin =>
          match cifFileOf cin with
          | none => none
          | some cif =>
            (extractComponents fsA crystals rest).map
              (fun r => ((extractDataset fsA cif d).1 + r.1,
                (k, .dataset (extractDataset fsA cif d).2) :: r.2))
    | _ => (extractComponents fsA crystals rest).map (fun r => (r.1, (k, v) :: r.2))

/-- Mapping of one external `fs_model.alignments` entry into the output
`aligned_files` tree (aligner.py lines 525-540): every site occurrence
becomes the four-path record, the derivative entries still absent. -/
def mapDsOut (d : DsOut) : DsOut :=
  d.map (fun ch => (ch.1, ch.2.map (fun lg => (lg.1, lg.2.map (fun oc => (oc.1, oc.2))))))

/-- The per-dataset assembly loop of `_perform_alignments` (aligner.py
lines 513-540): datasets without an entry in `fs_model.alignments` are
skipped; for the others the assigned crystal form is looked up
(`assigned_xtalforms[dtag]`, whose `KeyError` is `none`) and the
`aligned_files` tree is emitted. -/
def buildDatasets (assigned : List (String × String)) (alignments : List (String × DsOut)) :
    List (String × CrystalIn) → Option (List (String × MVal))
  | [] => some []
  | (dtag, _) :: rest =>
    match lookup dtag alignments with
    | none => buildDatasets assigned alignments rest
    | some dsOut =>
      match lookup dtag assigned with
      | none => none
      | some ax =>
        (buildDatasets assigned alignments rest).map
          (fun t => (dtag, .dataset ⟨ax, mapDsOut dsOut⟩) :: t)

/-- The transforms section of the output document (aligner.py lines
542-573): `new_meta['transforms']` is created empty, the
observation→conformer-site table is written (line 546), then the
conformer-site→canonical-site table (line 571).  The canonical-site→global
block (lines 586-598) is commented out in the source, so only these two
tables are present. -/
def buildTransformsSection (inputs : AlignInputs) : List (String × TableData) :=
  [(kObsToConf, inputs.obsToConfTransforms), (kConfToCanon, inputs.confToCanonTransforms)]

/-- The check performed by `get_datasets_from_crystals` (aligner.py lines
93-159) as far as it can fail: it raises on an empty crystal set (line
150-152) and dereferences `crystal['crystallographic_files']['xtal_pdb']['file']`
and the MTZ analogue (lines 103-108), which raise when the entry is
`null`. -/
def getDatasetsOk (crystals : List (String × CrystalIn)) : Bool :=
  !crystals.isEmpty && crystals.all (fun c => c.2.pdbFile.isSome && c.2.mtzFile.isSome)

/-- `Aligner._perform_alignments` (aligner.py lines 244-604) up to the
external alignment update: raise on an empty crystal set (lines 255-257);
raise when the metadata has no previous-output-dir entry, because the
symlink guard on line 275 evaluates `Path(previous_output_path)` on `None`
(`TypeError`) before anything is aligned; build the datasets (line 287);
then assemble the output document in source order — the four section
tables (lines 421, 425, 448, 467), the per-dataset entries (lines
513-540), the transforms section (lines 542-573) — and run
`_extract_components` (line 600), returning its error count together with
the document.  A dataset tag equal to one of the fixed section keys would
overwrite that section in the source's dict; the association list keeps
both, so theorems assume tags distinct from the section keys. -/
def performAlignments (inputs : AlignInputs) (fsA : AlignFS)
    (crystals : List (String × CrystalIn)) (prevOutputDir : Option String) :
    Option (Nat × List (String × MVal)) :=
  if crystals.isEmpty then none
  else
    match prevOutputDir with
    | none => none
    | some _ =>
      if !(getDatasetsOk crystals) then none
      else
        match buildDatasets inputs.assignedXtalforms inputs.alignments crystals with
        | none => none
        | some dsEntries =>
          let newMeta : List (String × MVal) :=
            [(kXtalforms, .table inputs.xtalformsMeta),
             (kConformerSites, .table inputs.conformerSites),
             (kCanonicalSites, .table inputs.canonicalSites),
             (kXtalformSites, .table inputs.xtalformSites)]
            ++ dsEntries
            ++ [(kTransforms, .transformsSection (buildTransformsSection inputs))]
          match extractComponents fsA crystals newMeta with
          | none => none
          | some r => some r

/-! ### Claims C7-C9: error accumulation, the transforms section, and the
first-run guard of the aligner -/

/-- Whether one site occurrence fails extraction: its aligned structure
file is missing, or the structure validation reports errors. -/
def occFails (fsA : AlignFS) (occ : AlignedOcc) : Nat :=
  if fsA.isFile occ.aligned_structure then
    (if fsA.validateErrs occ.aligned_structure then 1 else 0)
  else 1

def countSites (fsA : AlignFS) (sites : List (String × AlignedOcc)) : Nat :=
  (sites.map (fun s => occFails fsA s.2)).sum

def countLigands (fsA : AlignFS)
    (ligands : List (String × List (String × AlignedOcc))) : Nat :=
  (ligands.map (fun l => countSites fsA l.2)).sum

def countChains (fsA : AlignFS) (d : DsOut) : Nat :=
  (d.map (fun c => countLigands fsA c.2)).sum

/-- The number of failing site occurrences of a whole output document:
the sum, over every dataset entry not skipped by `ignore_keys`, of its
failing occurrences. -/
def countFailures (fsA : AlignFS) (meta : List (String × MVal)) : Nat :=
  (meta.map (fun e =>
    match e.2 with
    | .dataset d => if e.1 ∈ ignoreKeys then 0 else countChains fsA d.aligned_files
    | _ => 0)).sum

theorem extractOcc_count (fsA : AlignFS) (cif : Option String) (occ : AlignedOcc) :
    (extractOcc fsA cif occ).1 = occFails fsA occ := by
  by_cases h1 : fsA.isFile occ.aligned_structure
  · by_cases h2 : fsA.validateErrs occ.aligned_structure
    · simp [extractOcc, occFails, h1, h2]
    · cases cif <;> simp [extractOcc, occFails, h1, h2]
  · simp only [Bool.not_eq_true] at h1
    simp [extractOcc, occFails, h1]

theorem extractSites_count (fsA : AlignFS) (cif : Option String)
    (sites : List (String × AlignedOcc)) :
    (extractSites fsA cif sites).1 = countSites fsA sites := by
  induction sites with
  | nil => rfl
  | cons s rest ih =>
    obtain ⟨k, occ⟩ := s
    simp only [extractSites, countSites, List.map_cons, List.sum_cons]
    rw [extractOcc_count]
    simp only [countSites] at ih
    omega

theorem extractLigands_count (fsA : AlignFS) (cif : Option String)
    (ligands : List (String × List (String × AlignedOcc))) :
    (extractLigands fsA cif ligands).1 = countLigands fsA ligands := by
  induction ligands with
  | nil => rfl
  | cons l rest ih =>
    obtain ⟨k, sites⟩ := l
    simp only [extractLigands, countLigands, List.map_cons, List.sum_cons]
    rw [extractSites_count]
    simp only [countLigands] at ih
    omega

theorem extractChains_count (fsA : AlignFS) (cif : Option String) (d : DsOut) :
    (extractChains fsA cif d).1 = countChains fsA d := by
  induction d with
  | nil => rfl
  | cons c rest ih =>
    obtain ⟨k, ligands⟩ := c
    simp only [extractChains, countChains, List.map_cons, List.sum_cons]
    rw [extractLigands_count]
    simp only [countChains] at ih
    omega

theorem extractComponents_count (fsA : AlignFS) (crystals : List (String × CrystalIn)) :
    ∀ (meta : List (String × MVal)) (n : Nat) (meta' : List (String × MVal)),
      extractComponents fsA crystals meta = some (n, meta') →
      n = countFailures fsA meta := by
  intro meta
  induction meta with
  | nil =>
    intro n meta' h
    simp only [extractComponents, Option.some.injEq, Prod.mk.injEq] at h
    rw [← h.1]
    rfl
  | cons e rest ih =>
    intro n meta' h
    obtain ⟨k, v⟩ := e
    cases v with
    | table t =>
      unfold extractComponents at h
      dsimp only at h
      cases hr : extractComponents fsA crystals rest with
      | none => rw [hr] at h; simp at h
      | some r =>
        rw [hr] at h
        simp only [Option.map_some', Option.some.injEq, Prod.mk.injEq] at h
        obtain ⟨hn, _⟩ := h
        rw [← hn, ih r.1 r.2 (by rw [hr])]
        simp [countFailures]
    | transformsSection t =>
      unfold extractComponents at h
      dsimp only at h
      cases hr : extractComponents fsA crystals rest with
      | none => rw [hr] at h; simp at h
      | some r =>
        rw [hr] at h
        simp only [Option.map_some', Option.some.injEq, Prod.mk.injEq] at h
        obtain ⟨hn, _⟩ := h
        rw [← hn, ih r.1 r.2 (by rw [hr])]
        simp [countFailures]
    | dataset d =>
      unfold extractComponents at h
      dsimp only at h
      by_cases hk : k ∈ ignoreKeys
      · rw [if_pos hk] at h
        cases hr : extractComponents fsA crystals rest with
        | none => rw [hr] at h; simp at h
        | some r =>
          rw [hr] at h
          simp only [Option.map_some', Option.some.injEq, Prod.mk.injEq] at h
          obtain ⟨hn, _⟩ := h
          rw [← hn, ih r.1 r.2 (by rw [hr])]
          simp [countFailures, hk]
      · rw [if_neg hk] at h
        cases hc : lookup k crystals with
        | none => rw [hc] at h; simp at h
        | some cin =>
          rw [hc] at h
          dsimp only at h
          cases hcf : cifFileOf cin with
          | none => rw [hcf] at h; simp at h
          | some cif =>
            rw [hcf] at h
            dsimp only at h
            cases hr : extractComponents fsA crystals rest with
            | none => rw [hr] at h; simp at h
            | some r =>
              rw [hr] at h
              simp only [Option.map_some', Option.some.injEq, Prod.mk.injEq] at h
              obtain ⟨hn, _⟩ := h
              rw [← hn, ih r.1 r.2 (by rw [hr])]
              unfold extractDataset
              rw [extractChains_count]
              simp [countFailures, hk]

theorem extract_lookup_none (fsA : AlignFS) (crystals : List (String × CrystalIn))
    (dtag : String) :
    ∀ (meta : List (String × MVal)) (n : Nat) (meta' : List (String × MVal)),
      extractComponents fsA crystals meta = some (n, meta') →
      lookup dtag meta = none →
      lookup dtag meta' = none := by
  intro meta
  induction meta with
  | nil =>
    intro n meta' h _
    simp only [extractComponents, Option.some.injEq, Prod.mk.injEq] at h
    rw [← h.2]
    rfl
  | cons e rest ih =>
    intro n meta' h hnone
    obtain ⟨k, v⟩ := e
    rw [lookup_cons] at hnone
    by_cases hkd : k = dtag
    · rw [if_pos hkd] at hnone; cases hnone
    · rw [if_neg hkd] at hnone
      cases v with
      | table t =>
        unfold extractComponents at h
        dsimp only at h
        cases hr : extractComponents fsA crystals rest with
        | none => rw [hr] at h; simp at h
        | some r =>
          rw [hr] at h
          simp only [Option.map_some', Option.some.injEq, Prod.mk.injEq] at h
          rw [← h.2, lookup_cons, if_neg hkd]
          exact ih r.1 r.2 (by rw [hr]) hnone
      | transformsSection t =>
        unfold extractComponents at h
        dsimp only at h
        cases hr : extractComponents fsA crystals rest with
        | none => rw [hr] at h; simp at h
        | some r =>
          rw [hr] at h
          simp only [Option.map_some', Option.some.injEq, Prod.mk.injEq] at h
          rw [← h.2, lookup_cons, if_neg hkd]
          exact ih r.1 r.2 (by rw [hr]) hnone
      | dataset d =>
        unfold extractComponents at h
        dsimp only at h
        by_cases hk : k ∈ ignoreKeys
        · rw [if_pos hk] at h
          cases hr : extractComponents fsA crystals rest with
          | none => rw [hr] at h; simp at h
          | some r =>
            rw [hr] at h
            simp only [Option.map_some', Option.some.injEq, Prod.mk.injEq] at h
            rw [← h.2, lookup_cons, if_neg hkd]
            exact ih r.1 r.2 (by rw [hr]) hnone
        · rw [if_neg hk] at h
          cases hc : lookup k crystals with
          | none => rw [hc] at h; simp at h
          | some cin =>
            rw [hc] at h
            dsimp only at h
            cases hcf : cifFileOf cin with
            | none => rw [hcf] at h; simp at h
            | some cif =>
              rw [hcf] at h
              dsimp only at h
              cases hr : extractComponents fsA crystals rest with
              | none => rw [hr] at h; simp at h
              | some r =>
                rw [hr] at h
                simp only [Option.map_some', Option.some.injEq, Prod.mk.injEq] at h
                rw [← h.2, lookup_cons, if_neg hkd]
                exact ih r.1 r.2 (by rw [hr]) hnone

theorem extract_lookup_section (fsA : AlignFS) (crystals : List (String × CrystalIn))
    (key : String) (t : List (String × TableData)) :
    ∀ (meta : List (String × MVal)) (n : Nat) (meta' : List (String × MVal)),
      extractComponents fsA crystals meta = some (n, meta') →
      lookup key meta = some (.transformsSection t) →
      lookup key meta' = some (.transformsSection t) := by
  intro meta
  induction meta with
  | nil => intro n meta' _ hk; cases hk
  | cons e rest ih =>
    intro n meta' h hk
    obtain ⟨k, v⟩ := e
    rw [lookup_cons] at hk
    by_cases hkd : k = key
    · rw [if_pos hkd] at hk
      injection hk with hv
      subst hv
      unfold extractComponents at h
      dsimp only at h
      cases hr : extractComponents fsA crystals rest with
      | none => rw [hr] at h; simp at h
      | some r =>
        rw [hr] at h
        simp only [Option.map_some', Option.some.injEq, Prod.mk.injEq] at h
        rw [← h.2, lookup_cons, if_pos hkd]
    · rw [if_neg hkd] at hk
      cases v with
      | table tb =>
        unfold extractComponents at h
        dsimp only at h
        cases hr : extractComponents fsA crystals rest with
        | none => rw [hr] at h; simp at h
        | some r =>
          rw [hr] at h
          simp only [Option.map_some', Option.some.injEq, Prod.mk.injEq] at h
          rw [← h.2, lookup_cons, if_neg hkd]
          exact ih r.1 r.2 (by rw [hr]) hk
      | transformsSection tb =>
        unfold extractComponents at h
        dsimp only at h
        cases hr : extractComponents fsA crystals rest with
        | none => rw [hr] at h; simp at h
        | some r =>
          rw [hr] at h
          simp only [Option.map_some', Option.some.injEq, Prod.mk.injEq] at h
          rw [← h.2, lookup_cons, if_neg hkd]
          exact ih r.1 r.2 (by rw [hr]) hk
      | dataset d =>
        unfold extractComponents at h
        dsimp only at h
        by_cases hik : k ∈ ignoreKeys
        · rw [if_pos hik] at h
          cases hr : extractComponents fsA crystals rest with
          | none => rw [hr] at h; simp at h
          | some r =>
            rw [hr] at h
            simp only [Option.map_some', Option.some.injEq, Prod.mk.injEq] at h
            rw [← h.2, lookup_cons, if_neg hkd]
            exact ih r.1 r.2 (by rw [hr]) hk
        · rw [if_neg hik] at h
          cases hc : lookup k crystals with
          | none => rw [hc] at h; simp at h
          | some cin =>
            rw [hc] at h
            dsimp only at h
            cases hcf : cifFileOf cin with
            | none => rw [hcf] at h; simp at h
            | some cif =>
              rw [hcf] at h
              dsimp only at h
              cases hr : extractComponents fsA crystals rest with
              | none => rw [hr] at h; simp at h
              | some r =>
                rw [hr] at h
                simp only [Option.map_some', Option.some.injEq, Prod.mk.injEq] at h
                rw [← h.2, lookup_cons, if_neg hkd]
                exact ih r.1 r.2 (by rw [hr]) hk

theorem lookup_append_none {α : Type} (k : String) :
    ∀ (l₁ l₂ : List (String × α)), lookup k l₁ = none →
      lookup k (l₁ ++ l₂) = lookup k l₂ := by
  intro l₁
  induction l₁ with
  | nil => intro l₂ _; rfl
  | cons hd tl ih =>
    intro l₂ h
    obtain ⟨k', v⟩ := hd
    rw [lookup_cons] at h
    by_cases hk : k' = k
    · rw [if_pos hk] at h; cases h
    · rw [if_neg hk] at h
      rw [List.cons_append, lookup_cons, if_neg hk]
      exact ih l₂ h

theorem buildDatasets_lookup_none (assigned : List (String × String))
    (alignments : List (String × DsOut)) (dtag : String) :
    ∀ (cs : List (String × CrystalIn)) (out : List (String × MVal)),
      buildDatasets assigned alignments cs = some out →
      lookup dtag alignments = none →
      lookup dtag out = none := by
  intro cs
  induction cs with
  | nil =>
    intro out h _
    simp only [buildDatasets, Option.some.injEq] at h
    rw [← h]
    rfl
  | cons e rest ih =>
    intro out h hno
    obtain ⟨d, cin⟩ := e
    unfold buildDatasets at h
    cases ha : lookup d alignments with
    | none =>
      rw [ha] at h
      exact ih out h hno
    | some dsOut =>
      rw [ha] at h
      dsimp only at h
      cases hax : lookup d assigned with
      | none => rw [hax] at h; cases h
      | some ax =>
        rw [hax] at h
        dsimp only at h
        cases hr : buildDatasets assigned alignments rest with
        | none => rw [hr] at h; cases h
        | some t =>
          rw [hr] at h
          simp only [Option.map_some', Option.some.injEq] at h
          rw [← h, lookup_cons]
          by_cases hd : d = dtag
          · subst hd
            rw [ha] at hno
            cases hno
          · rw [if_neg hd]
            exact ih t hr hno

theorem buildDatasets_lookup_not_mem (assigned : List (String × String))
    (alignments : List (String × DsOut)) (key : String) :
    ∀ (cs : List (String × CrystalIn)) (out : List (String × MVal)),
      buildDatasets assigned alignments cs = some out →
      key ∉ cs.map Prod.fst →
      lookup key out = none := by
  intro cs
  induction cs with
  | nil =>
    intro out h _
    simp only [buildDatasets, Option.some.injEq] at h
    rw [← h]
    rfl
  | cons e rest ih =>
    intro out h hmem
    obtain ⟨d, cin⟩ := e
    simp only [List.map_cons, List.mem_cons] at hmem
    push_neg at hmem
    unfold buildDatasets at h
    cases ha : lookup d alignments with
    | none =>
      rw [ha] at h
      exact ih out h hmem.2
    | some dsOut =>
      rw [ha] at h
      dsimp only at h
      cases hax : lookup d assigned with
      | none => rw [hax] at h; cases h
      | some ax =>
        rw [hax] at h
        dsimp only at h
        cases hr : buildDatasets assigned alignments rest with
        | none => rw [hr] at h; cases h
        | some t =>
          rw [hr] at h
          simp only [Option.map_some', Option.some.injEq] at h
          rw [← h, lookup_cons, if_neg (fun he => hmem.1 he.symm)]
          exact ih t hr hmem.2

/-- C7.  In the metadata assembly of `_perform_alignments`, a dataset with
no record in `fs_model.alignments` is simply absent from the per-dataset
portion of the output document (the run succeeding all the same); the
extraction pass returns exactly the number of site occurrences whose
aligned structure file is missing or whose validation fails, each failure
leaving its entry unchanged and never aborting the loop; and every
occurrence passing both checks contributes no error and receives the
complete derivative entries (the ligand entries too when a CIF file is
present). -/
theorem aligner_errors_spec (inputs : AlignInputs) (fsA : AlignFS)
    (crystals : List (String × CrystalIn)) (prev : Option String)
    (n : Nat) (meta' : List (String × MVal)) (dtag : String)
    (hrun : performAlignments inputs fsA crystals prev = some (n, meta'))
    (hno : lookup dtag inputs.alignments = none)
    (hsec : ¬ dtag ∈ [kXtalforms, kConformerSites, kCanonicalSites,
      kXtalformSites, kTransforms]) :
    lookup dtag meta' = none ∧
    (∀ (fsB : AlignFS) (cs : List (String × CrystalIn)) (m : List (String × MVal))
      (nB : Nat) (m' : List (String × MVal)),
      extractComponents fsB cs m = some (nB, m') → nB = countFailures fsB m) ∧
    (∀ (fsB : AlignFS) (cif : Option String) (occ : AlignedOcc),
      fsB.isFile occ.aligned_structure = true →
      fsB.validateErrs occ.aligned_structure = false →
      (extractOcc fsB cif occ).1 = 0 ∧
      ((extractOcc fsB cif occ).2.pdb_apo).isSome = true ∧
      ((extractOcc fsB cif occ).2.pdb_apo_solv).isSome = true ∧
      ((extractOcc fsB cif occ).2.pdb_apo_desolv).isSome = true ∧
      (cif.isSome = true →
        ((extractOcc fsB cif occ).2.ligand_mol).isSome = true ∧
        ((extractOcc fsB cif occ).2.ligand_pdb).isSome = true ∧
        ((extractOcc fsB cif occ).2.ligand_smiles).isSome = true)) := by
  refine ⟨?_, ?_, ?_⟩
  · simp only [List.mem_cons, List.mem_singleton] at hsec
    push_neg at hsec
    obtain ⟨h1', h2', h3', h4', h5', -⟩ := hsec
    unfold performAlignments at hrun
    cases hemp : crystals.isEmpty with
    | true => rw [hemp] at hrun; simp at hrun
    | false =>
      rw [hemp] at hrun
      simp only [Bool.false_eq_true, if_false] at hrun
      cases prev with
      | none => simp at hrun
      | some p =>
        dsimp only at hrun
        cases hgd : getDatasetsOk crystals with
        | false => rw [hgd] at hrun; simp at hrun
        | true =>
          rw [hgd] at hrun
          simp only [Bool.not_true, Bool.false_eq_true, if_false] at hrun
          cases hbd : buildDatasets inputs.assignedXtalforms inputs.alignments crystals with
          | none => rw [hbd] at hrun; simp at hrun
          | some dsEntries =>
            rw [hbd] at hrun
            dsimp only at hrun
            cases hex : extractComponents fsA crystals
                ([(kXtalforms, .table inputs.xtalformsMeta),
                  (kConformerSites, .table inputs.conformerSites),
                  (kCanonicalSites, .table inputs.canonicalSites),
                  (kXtalformSites, .table inputs.xtalformSites)]
                  ++ dsEntries
                  ++ [(kTransforms, .transformsSection (buildTransformsSection inputs))]) with
            | none => rw [hex] at hrun; simp at hrun
            | some r =>
              rw [hex] at hrun
              simp only [Option.some.injEq] at hrun
              have hsections : lookup dtag
                  [(kXtalforms, MVal.table inputs.xtalformsMeta),
                   (kConformerSites, .table inputs.conformerSites),
                   (kCanonicalSites, .table inputs.canonicalSites),
                   (kXtalformSites, .table inputs.xtalformSites)] = none := by
                rw [lookup_cons, if_neg (fun he => h1' he.symm),
                  lookup_cons, if_neg (fun he => h2' he.symm),
                  lookup_cons, if_neg (fun he => h3' he.symm),
                  lookup_cons, if_neg (fun he => h4' he.symm)]
                rfl
              have hds : lookup dtag dsEntries = none :=
                buildDatasets_lookup_none inputs.assignedXtalforms inputs.alignments dtag
                  crystals dsEntries hbd hno
              have hmeta : lookup dtag
                  ([(kXtalforms, MVal.table inputs.xtalformsMeta),
                    (kConformerSites, .table inputs.conformerSites),
                    (kCanonicalSites, .table inputs.canonicalSites),
                    (kXtalformSites, .table inputs.xtalformSites)]
                    ++ dsEntries
                    ++ [(kTransforms, .transformsSection (buildTransformsSection inputs))])
                  = none := by
                rw [List.append_assoc, lookup_append_none dtag _ _ hsections,
                  lookup_append_none dtag _ _ hds, lookup_cons,
                  if_neg (fun he => h5' he.symm)]
                rfl
              have := extract_lookup_none fsA crystals dtag _ r.1 r.2
                (by rw [hex]) hmeta
              have hm2 : r.2 = meta' := by rw [hrun]
              rw [← hm2]
              exact this
  · intro fsB cs m nB m' h
    exact extractComponents_count fsB cs m nB m' h
  · intro fsB cif occ h1 h2
    cases cif with
    | none => simp [extractOcc, h1, h2]
    | some c =>
      refine ⟨?_, ?_, ?_, ?_, ?_⟩ <;> simp [extractOcc, h1, h2]

/-- Concrete inputs for the aligner witnesses: two crystals `a`, `b`; only
`a` has an alignment record; every file exists and validates. -/
def wInputs : AlignInputs :=
  { xtalformsMeta := []
    conformerSites := []
    canonicalSites := []
    xtalformSites := []
    assignedXtalforms := [("a", "xf1")]
    alignments := [("a", [])]
    obsToConfTransforms := []
    confToCanonTransforms := [] }

def wFS : AlignFS :=
  { isFile := fun _ => true
    validateErrs := fun _ => false
    apoOf := fun p => p
    apoSolvOf := fun p => p
    apoDesolvOf := fun p => p
    ligandMolOf := fun p => p
    ligandPdbOf := fun p => p
    smilesOf := fun p => p }

def wCrystals : List (String × CrystalIn) :=
  [("a", ⟨some "a.pdb", some "a.mtz", none, "new"⟩),
   ("b", ⟨some "b.pdb", some "b.mtz", none, "new"⟩)]

/-- The output document of the concrete run of `performAlignments` on
`wInputs` / `wFS` / `wCrystals`. -/
def wMeta : List (String × MVal) :=
  [(kXtalforms, .table []), (kConformerSites, .table []),
   (kCanonicalSites, .table []), (kXtalformSites, .table []),
   ("a", .dataset ⟨"xf1", []⟩),
   (kTransforms, .transformsSection [(kObsToConf, []), (kConfToCanon, [])])]

/-- Concrete instantiation of `aligner_errors_spec`: dataset `b` has no
alignment record and is absent from the output document of a successful
run. -/
theorem aligner_errors_spec_witness :
    lookup "b" wMeta = none ∧
    (∀ (fsB : AlignFS) (cs : List (String × CrystalIn)) (m : List (String × MVal))
      (nB : Nat) (m' : List (String × MVal)),
      extractComponents fsB cs m = some (nB, m') → nB = countFailures fsB m) ∧
    (∀ (fsB : AlignFS) (cif : Option String) (occ : AlignedOcc),
      fsB.isFile occ.aligned_structure = true →
      fsB.validateErrs occ.aligned_structure = false →
      (extractOcc fsB cif occ).1 = 0 ∧
      ((extractOcc fsB cif occ).2.pdb_apo).isSome = true ∧
      ((extractOcc fsB cif occ).2.pdb_apo_solv).isSome = true ∧
      ((extractOcc fsB cif occ).2.pdb_apo_desolv).isSome = true ∧
      (cif.isSome = true →
        ((extractOcc fsB cif occ).2.ligand_mol).isSome = true ∧
        ((extractOcc fsB cif occ).2.ligand_pdb).isSome = true ∧
        ((extractOcc fsB cif occ).2.ligand_smiles).isSome = true)) :=
  aligner_errors_spec wInputs wFS wCrystals (some "prev") 0 wMeta "b"
    (by decide) (by decide) (by decide)

/-- C8 counterexample.  On a concrete successful run the `transforms`
section of the emitted document contains exactly the two tables written on
aligner.py lines 546 and 571 (observation→conformer-site and
conformer-site→canonical-site); the canonical-site→global table of the
claim does not exist (its emission, lines 586-598, is commented out), so
the section does not contain three named tables. -/
theorem transforms_counterexample :
    (performAlignments wInputs wFS wCrystals (some "prev")).map
        (fun r => lookup kTransforms r.2)
      = some (some (.transformsSection [(kObsToConf, []), (kConfToCanon, [])]))
    ∧ ¬([(kObsToConf, ([] : TableData)), (kConfToCanon, [])].length = 3) :=
  ⟨by decide, by decide⟩

/-- C8 (amended).  The alignment metadata document produced by a
successful run contains a `transforms` section with exactly two named
tables: the observation→conformer-site transforms and the
conformer-site→canonical-site transforms.  The canonical-site→global
table is absent. -/
theorem transforms_section_spec (inputs : AlignInputs) (fsA : AlignFS)
    (crystals : List (String × CrystalIn)) (prev : Option String)
    (n : Nat) (meta' : List (String × MVal))
    (hrun : performAlignments inputs fsA crystals prev = some (n, meta'))
    (hntag : kTransforms ∉ crystals.map Prod.fst) :
    lookup kTransforms meta' = some (.transformsSection
      [(kObsToConf, inputs.obsToConfTransforms),
       (kConfToCanon, inputs.confToCanonTransforms)]) := by
  unfold performAlignments at hrun
  cases hemp : crystals.isEmpty with
  | true => rw [hemp] at hrun; simp at hrun
  | false =>
    rw [hemp] at hrun
    simp only [Bool.false_eq_true, if_false] at hrun
    cases prev with
    | none => simp at hrun
    | some p =>
      dsimp only at hrun
      cases hgd : getDatasetsOk crystals with
      | false => rw [hgd] at hrun; simp at hrun
      | true =>
        rw [hgd] at hrun
        simp only [Bool.not_true, Bool.false_eq_true, if_false] at hrun
        cases hbd : buildDatasets inputs.assignedXtalforms inputs.alignments crystals with
        | none => rw [hbd] at hrun; simp at hrun
        | some dsEntries =>
          rw [hbd] at hrun
          dsimp only at hrun
          cases hex : extractComponents fsA crystals
              ([(kXtalforms, .table inputs.xtalformsMeta),
                (kConformerSites, .table inputs.conformerSites),
                (kCanonicalSites, .table inputs.canonicalSites),
                (kXtalformSites, .table inputs.xtalformSites)]
                ++ dsEntries
                ++ [(kTransforms, .transformsSection (buildTransformsSection inputs))]) with
          | none => rw [hex] at hrun; simp at hrun
          | some r =>
            rw [hex] at hrun
            simp only [Option.some.injEq] at hrun
            have hsections : lookup kTransforms
                [(kXtalforms, MVal.table inputs.xtalformsMeta),
                 (kConformerSites, .table inputs.conformerSites),
                 (kCanonicalSites, .table inputs.canonicalSites),
                 (kXtalformSites, .table inputs.xtalformSites)] = none := by
              simp [lookup, kTransforms, kXtalforms, kConformerSites, kCanonicalSites,
                kXtalformSites]
            have hds : lookup kTransforms dsEntries = none :=
              buildDatasets_lookup_not_mem inputs.assignedXtalforms inputs.alignments
                kTransforms crystals dsEntries hbd hntag
            have hmeta : lookup kTransforms
                ([(kXtalforms, MVal.table inputs.xtalformsMeta),
                  (kConformerSites, .table inputs.conformerSites),
                  (kCanonicalSites, .table inputs.canonicalSites),
                  (kXtalformSites, .table inputs.xtalformSites)]
                  ++ dsEntries
                  ++ [(kTransforms, .transformsSection (buildTransformsSection inputs))])
                = some (.transformsSection (buildTransformsSection inputs)) := by
              rw [List.append_assoc, lookup_append_none _ _ _ hsections,
                lookup_append_none _ _ _ hds, lookup_cons, if_pos rfl]
            have := extract_lookup_section fsA crystals kTransforms
              (buildTransformsSection inputs) _ r.1 r.2 (by rw [hex]) hmeta
            have hm2 : r.2 = meta' := by rw [hrun]
            rw [← hm2]
            exact this

/-- Concrete instantiation of `transforms_section_spec` on the
`wInputs` run. -/
theorem transforms_section_spec_witness :
    lookup kTransforms wMeta = some (.transformsSection
      [(kObsToConf, wInputs.obsToConfTransforms),
       (kConfToCanon, wInputs.confToCanonTransforms)]) :=
  transforms_section_spec wInputs wFS wCrystals (some "prev") 0 wMeta
    (by decide) (by decide)

/-- C9.  When the input metadata document has no previous-output-dir
entry (the first-ever alignment run), `_perform_alignments` raises before
computing any alignment: the symlink-old-data guard on aligner.py line 275
evaluates `Path(previous_output_path)` with `previous_output_path = None`,
raising `TypeError` (and an empty crystal set raises even earlier, lines
255-257).  So the call never returns a document, and alignment can only
complete when a previous output path is recorded. -/
theorem perform_alignments_requires_prev (inputs : AlignInputs) (fsA : AlignFS)
    (crystals : List (String × CrystalIn)) :
    performAlignments inputs fsA crystals none = none := by
  unfold performAlignments
  cases h : crystals.isEmpty <;> simp [h]

end XChemAlign
